import Mathlib

/-! # tennis_map: visited-country globe (`src/main.js`)

A shallow embedding of the session state of `main.js` and of the functions
`loadVisitedCountries`, `saveVisitedCountries`, `toggleVisitedCountry`,
`resetVisitedCountries` and `updateLabelVisibility`, followed by theorems about
them.

Conventions of the embedding.

* JavaScript numbers are exact rationals (`ℚ`); pixel sizes reported by the DOM
  (`clientWidth`, `offsetWidth`, ...) are naturals.
* A JavaScript `Set` of strings is the list of its members in insertion order.
* `countryMeshes` (an object used as a dictionary) is the list of its entries in
  `Object.entries` order; an element write through a `labelInfo.element`
  reference is a write to the label of the entry with that key.
* The values that THREE.js, the DOM and `Math.sqrt` hand to
  `updateLabelVisibility` are collected in `Env`, indexed by country name.
* `localStorage` holds only the item `'visitedCountries'`; the JSON text of an
  array of strings is represented by that array (`JSON.parse` undoes
  `JSON.stringify`, and the text of an array is never the empty string, so it is
  truthy exactly when the item is present).
* The presentational DOM nodes `#country-info`, `#visited-count` and
  `#visited-list` are not part of the state.
-/

namespace TennisMap

/-! ## Data model -/

/-- The `material` of a country mesh: `color` (hex) and `opacity`. -/
structure Material where
  color : ℕ
  opacity : ℚ
  deriving DecidableEq, Repr

/-- The `div` of a country label: `className` and the `style` properties written
by the script. `zIndex` is `none` until `updateLabelVisibility` assigns it. -/
structure Element where
  className : String
  opacity : String
  zIndex : Option ℤ
  color : String
  fontWeight : String
  deriving DecidableEq, Repr

/-- A country mesh: `userData.country`, `material`, the bounding-box volume that
`addCountryLabels` uses as the country size, `userData.label` (absent until
`addCountryLabels` has run) and `userData.isLabelMajor`. -/
structure Mesh where
  country : String
  material : Material
  area : ℚ
  label : Option Element
  isLabelMajor : Bool
  deriving DecidableEq, Repr

/-- The global variables of `main.js` together with the `localStorage` item. -/
structure State where
  visitedCountries : List String
  localStorage : Option (List String)
  globe : Bool
  countryMeshes : List (String × Mesh)
  visibleLabels : List String
  deriving DecidableEq, Repr

/-- What the camera, the DOM layout and `Math.sqrt` report during one call of
`updateLabelVisibility`, per country name:
`dot` is `globeToLabel.dot(globeToCamera)`, `screenPosX`/`screenPosY` are the
components of `worldPos.clone().project(camera)`, `distanceToCamera` is
`worldPos.distanceTo(camera.position)`, `clientWidth`/`clientHeight` are those of
`labelRenderer.domElement`, `offsetWidth`/`offsetHeight` are the measured sizes
of the label element. -/
structure Env where
  dot : String → ℚ
  screenPosX : String → ℚ
  screenPosY : String → ℚ
  distanceToCamera : String → ℚ
  clientWidth : ℕ
  clientHeight : ℕ
  offsetWidth : String → ℕ
  offsetHeight : String → ℕ
  sqrt : ℚ → ℚ

/-- The constant `majorCountries` (lines 25-31). -/
def majorCountries : List String :=
  ["United States of America", "Russia", "Canada", "China", "Brazil",
   "Australia", "India", "Argentina", "Kazakhstan", "Algeria", "Mexico",
   "Indonesia", "Saudi Arabia", "Iran", "Japan", "Egypt", "France",
   "Thailand", "Spain", "Turkey", "Germany", "Italy", "United Kingdom",
   "South Africa", "Colombia", "Ukraine", "Pakistan"]

/-! ## The visited set and its persistence -/

/-- The method `Set.prototype.add`. -/
def setAdd (set : List String) (value : String) : List String :=
  if value ∈ set then set else set ++ [value]

/-- The method `Set.prototype.delete`. -/
def setDelete (set : List String) (value : String) : List String :=
  set.filter (fun v => v ≠ value)

/-- The function `loadVisitedCountries` (lines 5-11). -/
def loadVisitedCountries (s : State) : State :=
  match s.localStorage with
  | some countries =>
    { s with visitedCountries := countries.foldl setAdd s.visitedCountries }
  | none => s

/-- The function `saveVisitedCountries` (lines 14-16). -/
def saveVisitedCountries (s : State) : State :=
  { s with localStorage := some s.visitedCountries }

/-- A fresh page load: the script starts with `new Set()` and the same
`localStorage`, then runs `loadVisitedCountries`. -/
def reload (s : State) : State :=
  loadVisitedCountries { s with visitedCountries := [] }

/-- Apply `f` to the mesh object stored under key `key`. -/
def updateMesh (key : String) (f : Mesh → Mesh) (meshes : List (String × Mesh)) :
    List (String × Mesh) :=
  meshes.map (fun e => if e.1 = key then (e.1, f e.2) else e)

/-- The branch of `toggleVisitedCountry` for a visited country (lines 355-374),
as a change of the mesh. -/
def unmarkMesh (countryName : String) (countryMesh : Mesh) : Mesh :=
  let m := { countryMesh with material := { color := 0x3a7a50, opacity := 3 / 10 } }
  match m.label with
  | some el =>
    let major := majorCountries.contains countryName
    { m with
      isLabelMajor := major
      label := some { el with
        color := "white"
        fontWeight := "normal"
        className := if major then "country-label major" else "country-label minor" } }
  | none => m

/-- The branch of `toggleVisitedCountry` for a country not yet visited
(lines 377-390), as a change of the mesh. -/
def markMesh (countryMesh : Mesh) : Mesh :=
  let m := { countryMesh with material := { color := 0xff9900, opacity := 8 / 10 } }
  match m.label with
  | some el =>
    { m with
      isLabelMajor := true
      label := some { el with
        color := "#ff9900"
        fontWeight := "bold"
        className := "country-label major" } }
  | none => m

/-- The function `toggleVisitedCountry(countryName, countryMesh)` (lines 352-401);
`meshKey` is the key under which the mesh object passed as `countryMesh` is
stored in `countryMeshes`. -/
def toggleVisitedCountry (countryName meshKey : String) (s : State) : State :=
  let s1 : State :=
    if countryName ∈ s.visitedCountries then
      { s with
        visitedCountries := setDelete s.visitedCountries countryName
        countryMeshes := updateMesh meshKey (unmarkMesh countryName) s.countryMeshes }
    else
      { s with
        visitedCountries := setAdd s.visitedCountries countryName
        countryMeshes := updateMesh meshKey markMesh s.countryMeshes }
  saveVisitedCountries s1

/-- The body of the `forEach` of `resetVisitedCountries` (lines 592-605). -/
def resetMesh (mesh : Mesh) : Mesh :=
  let m := { mesh with material := { color := 0x3a7a50, opacity := 3 / 10 } }
  match m.label with
  | some el =>
    { m with
      isLabelMajor := majorCountries.contains m.country
      label := some { el with color := "white", fontWeight := "normal" } }
  | none => m

/-- The function `resetVisitedCountries` (lines 587-618). -/
def resetVisitedCountries (s : State) : State :=
  { s with
    visitedCountries := []
    countryMeshes := s.countryMeshes.map (fun e => (e.1, resetMesh e.2))
    localStorage := none }

/-! ## Label visibility -/

/-- An entry of `potentialVisibleLabels` (lines 484-492). The fields `label` and
`element` of the source are references to the label of `countryName`. -/
structure LabelInfo where
  countryName : String
  screenX : ℚ
  screenY : ℚ
  depth : ℚ
  priority : ℚ
  deriving DecidableEq, Repr

/-- A label box (lines 532-537). -/
structure Box where
  left : ℚ
  right : ℚ
  top : ℚ
  bottom : ℚ
  deriving DecidableEq, Repr

/-- The test of lines 457-458. -/
def inViewBounds (env : Env) (countryName : String) : Bool :=
  decide (env.screenPosX countryName > -(9 / 10)) && decide (env.screenPosX countryName < 9 / 10) &&
  decide (env.screenPosY countryName > -(9 / 10)) && decide (env.screenPosY countryName < 9 / 10)

/-- The priority score of lines 468-482. -/
def priorityOf (env : Env) (visitedCountries : List String) (countryName : String)
    (mesh : Mesh) : ℚ :=
  let priority : ℚ := 0
  let priority := if countryName ∈ visitedCountries then priority + 1000 else priority
  let priority := if mesh.isLabelMajor then priority + 500 else priority
  let distFromCenter :=
    env.sqrt (env.screenPosX countryName * env.screenPosX countryName +
      env.screenPosY countryName * env.screenPosY countryName)
  priority - distFromCenter * 100

/-- The pixel abscissa of line 461. -/
def screenXOf (env : Env) (countryName : String) : ℚ :=
  (env.screenPosX countryName + 1) * env.clientWidth / 2

/-- The pixel ordinate of line 462. -/
def screenYOf (env : Env) (countryName : String) : ℚ :=
  (-env.screenPosY countryName + 1) * env.clientHeight / 2

/-- The record pushed at lines 484-492. -/
def labelInfoOf (env : Env) (visitedCountries : List String) (countryName : String)
    (mesh : Mesh) : LabelInfo :=
  { countryName := countryName
    screenX := screenXOf env countryName
    screenY := screenYOf env countryName
    depth := env.distanceToCamera countryName
    priority := priorityOf env visitedCountries countryName mesh }

/-- The first `forEach` of `updateLabelVisibility` (lines 432-498): returns
`potentialVisibleLabels` and the meshes after the writes of line 496. -/
def scanLabels (env : Env) (visitedCountries : List String) :
    List (String × Mesh) → List LabelInfo × List (String × Mesh)
  | [] => ([], [])
  | (countryName, mesh) :: rest =>
    let r := scanLabels env visitedCountries rest
    match mesh.label with
    | none => (r.1, (countryName, mesh) :: r.2)
    | some labelElement =>
      if env.dot countryName > 0 then
        if inViewBounds env countryName then
          (labelInfoOf env visitedCountries countryName mesh :: r.1, (countryName, mesh) :: r.2)
        else
          (r.1, (countryName, mesh) :: r.2)
      else
        (r.1, (countryName, { mesh with label := some { labelElement with opacity := "0" } }) :: r.2)

/-- The comparison function passed to `sort` (lines 501-509). -/
def compareLabels (a b : LabelInfo) : ℚ :=
  let priorityDiff := b.priority - a.priority
  if |priorityDiff| > 100 then priorityDiff else a.depth - b.depth

/-- The inner loop of an in-place insertion sort: `element` is moved left past
every `tmp` with `cmp tmp element > 0`. The ordered prefix is given from its
right end (last element first), and so is the result. -/
def insertFromRight {α : Type} (cmp : α → α → ℚ) (element : α) : List α → List α
  | [] => [element]
  | tmp :: rest =>
    if cmp tmp element > 0 then tmp :: insertFromRight cmp element rest
    else element :: tmp :: rest

/-- The method `Array.prototype.sort(cmp)`, as a stable insertion sort that takes
the elements from left to right. ECMAScript fixes the result only when `cmp` is
a consistent comparison on the array; on other inputs the order is
implementation-defined and this model gives the order of the textbook
insertion sort (an array whose neighbours are all in comparator order is left
as it is). -/
def sort {α : Type} (cmp : α → α → ℚ) (l : List α) : List α :=
  (l.foldl (fun sortedRev element => insertFromRight cmp element sortedRev) []).reverse

/-- The box of lines 527-537; `||` replaces a measured size of `0` by the
fallback. -/
def boxOf (env : Env) (labelInfo : LabelInfo) : Box :=
  let width : ℚ :=
    if env.offsetWidth labelInfo.countryName = 0 then 100 else env.offsetWidth labelInfo.countryName
  let height : ℚ :=
    if env.offsetHeight labelInfo.countryName = 0 then 20 else env.offsetHeight labelInfo.countryName
  let margin : ℚ := 15
  { left := labelInfo.screenX - width / 2 - margin
    right := labelInfo.screenX + width / 2 + margin
    top := labelInfo.screenY - height / 2 - margin
    bottom := labelInfo.screenY + height / 2 + margin }

/-- The predicate of `labelBoxes.some` (lines 541-546). -/
def overlaps (box existingBox : Box) : Bool :=
  !(decide (box.right < existingBox.left) || decide (box.left > existingBox.right) ||
    decide (box.bottom < existingBox.top) || decide (box.top > existingBox.bottom))

/-- The function `Math.round`: the nearest integer, halves towards `+∞`. -/
def round (x : ℚ) : ℤ := ⌊x + 1 / 2⌋

/-- A write to the `style` of `labelInfo.element`. -/
def setStyle (countryName : String) (f : Element → Element) (meshes : List (String × Mesh)) :
    List (String × Mesh) :=
  updateMesh countryName (fun m => { m with label := m.label.map f }) meshes

/-- The variables that the second `forEach` of `updateLabelVisibility` changes. -/
structure Placement where
  labelBoxes : List Box
  labelCount : ℕ
  visibleLabels : List String
  countryMeshes : List (String × Mesh)
  deriving DecidableEq, Repr

/-- The body of the second `forEach` (lines 519-565). -/
def placeLabel (env : Env) (maxLabels : ℕ) (p : Placement) (labelInfo : LabelInfo) : Placement :=
  if p.labelCount ≥ maxLabels then
    { p with countryMeshes :=
        setStyle labelInfo.countryName (fun el => { el with opacity := "0" }) p.countryMeshes }
  else
    let box := boxOf env labelInfo
    let hasOverlap := p.labelBoxes.any (fun existingBox => overlaps box existingBox)
    if !hasOverlap then
      let zIndex := 1000 - round labelInfo.depth
      { labelBoxes := p.labelBoxes ++ [box]
        labelCount := p.labelCount + 1
        visibleLabels := p.visibleLabels ++ [labelInfo.countryName]
        countryMeshes :=
          setStyle labelInfo.countryName
            (fun el => { el with opacity := "1", zIndex := some zIndex }) p.countryMeshes }
    else
      { p with countryMeshes :=
          setStyle labelInfo.countryName (fun el => { el with opacity := "0" }) p.countryMeshes }

/-- The sorted `potentialVisibleLabels` that the second `forEach` walks
(lines 424-509). -/
def potentialVisibleLabels (env : Env) (s : State) : List LabelInfo :=
  sort compareLabels (scanLabels env s.visitedCountries s.countryMeshes).1

/-- The function `updateLabelVisibility` (lines 417-566). -/
def updateLabelVisibility (env : Env) (s : State) : State :=
  if !s.globe then s
  else
    let scanned := scanLabels env s.visitedCountries s.countryMeshes
    let sorted := sort compareLabels scanned.1
    let maxLabels := min 15 sorted.length
    let placed :=
      sorted.foldl (placeLabel env maxLabels)
        { labelBoxes := [], labelCount := 0, visibleLabels := [], countryMeshes := scanned.2 }
    { s with visibleLabels := placed.visibleLabels, countryMeshes := placed.countryMeshes }

/-! ## Geometry of the placement rectangles -/

/-- The placement rectangle of a label: centred at its pixel position, half the
width and height plus a margin of 15 pixels on each side, the width and height
being the measured size, or 100 and 20 when the measured size is 0. -/
def placementRect (env : Env) (countryName : String) : Box :=
  let w : ℚ := if env.offsetWidth countryName = 0 then 100 else env.offsetWidth countryName
  let h : ℚ := if env.offsetHeight countryName = 0 then 20 else env.offsetHeight countryName
  { left := screenXOf env countryName - (w / 2 + 15)
    right := screenXOf env countryName + (w / 2 + 15)
    top := screenYOf env countryName - (h / 2 + 15)
    bottom := screenYOf env countryName + (h / 2 + 15) }

/-- The point `(px, py)` lies in the closed rectangle `b`. -/
def Box.Contains (b : Box) (px py : ℚ) : Prop :=
  b.left ≤ px ∧ px ≤ b.right ∧ b.top ≤ py ∧ py ≤ b.bottom

/-! ## Auxiliary definitions for the proofs -/

/-- The effect of the first loop on one entry: a far-side label is hidden. -/
def hideFar (env : Env) (e : String × Mesh) : String × Mesh :=
  match e.2.label with
  | none => e
  | some labelElement =>
    if env.dot e.1 > 0 then e
    else (e.1, { e.2 with label := some { labelElement with opacity := "0" } })

/-- A write to the style of a label element by the second loop: `none` hides it
(lines 522, 563), `some z` shows it with z-index `z` (lines 559-560). -/
def writeStyle : Option ℤ → Element → Element
  | none, el => { el with opacity := "0" }
  | some z, el => { el with opacity := "1", zIndex := some z }

/-- The decision of the second loop for one candidate. -/
def verdict (env : Env) (maxLabels : ℕ) (p : Placement) (labelInfo : LabelInfo) : Option ℤ :=
  if p.labelCount ≥ maxLabels then none
  else if p.labelBoxes.any (fun existingBox => overlaps (boxOf env labelInfo) existingBox) then none
  else some (1000 - round labelInfo.depth)

/-- The style writes of the second loop, in order. -/
def styleTrace (env : Env) (maxLabels : ℕ) : Placement → List LabelInfo → List (String × Option ℤ)
  | _, [] => []
  | p, labelInfo :: rest =>
    (labelInfo.countryName, verdict env maxLabels p labelInfo) ::
      styleTrace env maxLabels (placeLabel env maxLabels p labelInfo) rest

/-- The combined effect of a list of style writes on the element of `key`. -/
def netStyle (ws : List (String × Option ℤ)) (key : String) (el : Element) : Element :=
  ws.foldl (fun el w => if w.1 = key then writeStyle w.2 el else el) el

/-- The combined effect of a list of style writes on one entry of `countryMeshes`. -/
def entryNet (ws : List (String × Option ℤ)) (e : String × Mesh) : String × Mesh :=
  (e.1, { e.2 with label := e.2.label.map (netStyle ws e.1) })

/-- An element with `opacity` and `zIndex` overridden where given. -/
def override (o : Option String) (z : Option ℤ) (el : Element) : Element :=
  { el with
    opacity := match o with
      | some a => a
      | none => el.opacity
    zIndex := match z with
      | some i => some i
      | none => el.zIndex }

/-- Two placements agree on everything but the meshes. -/
def SameDecisions (p q : Placement) : Prop :=
  p.labelBoxes = q.labelBoxes ∧ p.labelCount = q.labelCount ∧ p.visibleLabels = q.visibleLabels

/-- The invariant of the second loop. -/
def PlacementInv (env : Env) (maxLabels : ℕ) (p : Placement) : Prop :=
  p.labelCount ≤ maxLabels ∧ p.visibleLabels.length = p.labelCount ∧
    p.labelBoxes = p.visibleLabels.map (placementRect env) ∧
    p.labelBoxes.Pairwise (fun a b => overlaps b a = false)

/-- A candidate record carries the pixel position of its country. -/
def WellPlaced (env : Env) (labelInfo : LabelInfo) : Prop :=
  labelInfo.screenX = screenXOf env labelInfo.countryName ∧
    labelInfo.screenY = screenYOf env labelInfo.countryName

/-- The style writes of one pass. -/
def passWrites (env : Env) (s : State) : List (String × Option ℤ) :=
  styleTrace env (min 15 (potentialVisibleLabels env s).length)
    { labelBoxes := [], labelCount := 0, visibleLabels := [],
      countryMeshes := (scanLabels env s.visitedCountries s.countryMeshes).2 }
    (potentialVisibleLabels env s)

/-! ## An executable square root -/

/-- Bisection for the integer square root: keeps `lo * lo ≤ n`. -/
def bisect (n : ℕ) : ℕ → ℕ → ℕ → ℕ
  | 0, lo, _ => lo
  | fuel + 1, lo, hi =>
    if hi ≤ lo + 1 then lo
    else if (lo + hi) / 2 * ((lo + hi) / 2) ≤ n then bisect n fuel ((lo + hi) / 2) hi
    else bisect n fuel lo ((lo + hi) / 2)

/-- The integer square root of `n`, rounded down. -/
def isqrt (n : ℕ) : ℕ := bisect n (n + 1) 0 (n + 1)

/-- An executable `Math.sqrt` for the examples: the square root of `v` rounded
down to a multiple of `1 / v.den` (`0` for negative `v`); exact on squares of
rationals. -/
def qsqrt (v : ℚ) : ℚ := (isqrt (v.num.toNat * v.den) : ℚ) / v.den

/-! ## Example inputs -/

/-- A label element as `addCountryLabels` creates it (lines 685-696). -/
def newElement (isMajor : Bool) : Element :=
  { className := if isMajor then "country-label major" else "country-label minor"
    opacity := if isMajor then "1" else "0"
    zIndex := none
    color := ""
    fontWeight := "" }

/-- An entry of `countryMeshes` with a label. -/
def labelled (countryName : String) (isMajor : Bool) : String × Mesh :=
  (countryName,
    { country := countryName
      material := { color := 0x3a7a50, opacity := 3 / 10 }
      area := 1
      label := some (newElement isMajor)
      isLabelMajor := isMajor })

/-- Example: `A` (visited, not major) and `B` (major) almost at the screen
centre, `F` on the far side, `X` on the near side outside the view bounds. -/
def envDemo : Env :=
  { dot := fun n => if n = "F" then -1 else 1
    screenPosX := fun n => if n = "B" then 3 / 100 else if n = "X" then 19 / 20 else 0
    screenPosY := fun _ => 0
    distanceToCamera := fun n => if n = "A" then 100 else if n = "B" then 101 else 150
    clientWidth := 800
    clientHeight := 600
    offsetWidth := fun _ => 0
    offsetHeight := fun _ => 0
    sqrt := qsqrt }

/-- The state of the example `envDemo`. -/
def sDemo : State :=
  { visitedCountries := ["A"]
    localStorage := some ["A"]
    globe := true
    countryMeshes := [labelled "A" false, labelled "B" true, labelled "F" true, labelled "X" true]
    visibleLabels := [] }

/-- Example: three labels of minor, unvisited countries whose comparisons form a
cycle: `A` is at the screen centre and farthest from the camera, `B` is near the
corner and nearest. -/
def envCycle : Env :=
  { dot := fun _ => 1
    screenPosX := fun n => if n = "A" then 0 else if n = "C" then 3 / 10 else 4 / 5
    screenPosY := fun n => if n = "A" then 0 else if n = "C" then 2 / 5 else 21 / 25
    distanceToCamera := fun n => if n = "A" then 3 else if n = "C" then 2 else 1
    clientWidth := 500
    clientHeight := 200
    offsetWidth := fun _ => 200
    offsetHeight := fun _ => 60
    sqrt := qsqrt }

/-- The state of the example `envCycle`. -/
def sCycle : State :=
  { visitedCountries := []
    localStorage := none
    globe := true
    countryMeshes := [labelled "B" false, labelled "C" false, labelled "A" false]
    visibleLabels := [] }

/-- Example: one major label on the near side, beyond the right view bound. -/
def envEdge : Env :=
  { dot := fun _ => 1
    screenPosX := fun _ => 19 / 20
    screenPosY := fun _ => 0
    distanceToCamera := fun _ => 150
    clientWidth := 800
    clientHeight := 600
    offsetWidth := fun _ => 0
    offsetHeight := fun _ => 0
    sqrt := qsqrt }

/-- The state of the example `envEdge`, as `addCountryLabels` leaves it. -/
def sEdge : State :=
  { visitedCountries := []
    localStorage := none
    globe := true
    countryMeshes := [labelled "Russia" true]
    visibleLabels := [] }

/-- Positions and camera distances of the sixteen labels of `env16`:
name, projected x, projected y, distance to the camera. -/
def table16 : List (String × ℚ × ℚ × ℚ) :=
  [("L0", 0, 0, 16),
   ("L1", 3 / 10, 2 / 5, 1), ("L2", -(3 / 10), 2 / 5, 2),
   ("L3", 3 / 10, -(2 / 5), 3), ("L4", -(3 / 10), -(2 / 5), 4),
   ("L5", 2 / 5, 3 / 10, 5), ("L6", -(2 / 5), 3 / 10, 6),
   ("L7", 2 / 5, -(3 / 10), 7), ("L8", -(2 / 5), -(3 / 10), 8),
   ("L9", 0, 1 / 2, 9), ("L10", 0, -(1 / 2), 10),
   ("L11", 1 / 2, 0, 11), ("L12", -(1 / 2), 0, 12),
   ("L13", 3 / 5, 4 / 5, 13), ("L14", -(3 / 5), 4 / 5, 14), ("L15", 3 / 5, -(4 / 5), 15)]

/-- Example: sixteen major labels on a 2000 by 2000 viewport, no two placement
rectangles overlapping; the label at the screen centre is the farthest. -/
def env16 : Env :=
  { dot := fun _ => 1
    screenPosX := fun n => ((table16.lookup n).getD (0, 0, 0)).1
    screenPosY := fun n => ((table16.lookup n).getD (0, 0, 0)).2.1
    distanceToCamera := fun n => ((table16.lookup n).getD (0, 0, 0)).2.2
    clientWidth := 2000
    clientHeight := 2000
    offsetWidth := fun _ => 0
    offsetHeight := fun _ => 0
    sqrt := qsqrt }

/-- The state of the example `env16`. -/
def s16 : State :=
  { visitedCountries := []
    localStorage := none
    globe := true
    countryMeshes := table16.map (fun r => labelled r.1 true)
    visibleLabels := [] }

/-! ## The sorting order and the greedy walk, as relations -/

/-- The candidate `a` sorts before `b`: the comparison function of lines 501-509
returns a negative number for `(a, b)`. -/
@[reducible] def SortsBefore (a b : LabelInfo) : Prop := compareLabels a b < 0

/-- The priorities of `a` and `b` are in the tie band of line 504. -/
@[reducible] def InBand (a b : LabelInfo) : Prop := |b.priority - a.priority| ≤ 100

/-- The acceptance rule of the greedy placement in words: fewer than 15
candidates are accepted so far and the rectangle of the candidate intersects
none of theirs. -/
def accepts (env : Env) (accepted : List LabelInfo) (c : LabelInfo) : Bool :=
  decide (accepted.length < 15) &&
    accepted.all (fun a =>
      !overlaps (placementRect env c.countryName) (placementRect env a.countryName))

/-- One step of the greedy placement in words. -/
def greedyStep (env : Env) (accepted : List LabelInfo) (c : LabelInfo) : List LabelInfo :=
  if accepts env accepted c then accepted ++ [c] else accepted

/-- The candidates that the greedy placement accepts when it walks `l`. -/
def greedyAccepted (env : Env) (l : List LabelInfo) : List LabelInfo :=
  l.foldl (greedyStep env) []

/-- The placement `p` of the code holds the accepted candidates `accepted`. -/
def Simulates (env : Env) (p : Placement) (accepted : List LabelInfo) : Prop :=
  p.labelBoxes = accepted.map (fun a => placementRect env a.countryName) ∧
    p.labelCount = accepted.length ∧
    p.visibleLabels = accepted.map LabelInfo.countryName

/-- The z-index that line 558 computes for the label of `countryName`. -/
def zIndexOf (env : Env) (countryName : String) : ℤ :=
  1000 - round (env.distanceToCamera countryName)

/-! ## Creation of the labels -/

/-- The body of the second `forEach` of `addCountryLabels` (lines 675-710):
`totalArea` is the sum of the country sizes, `mesh.area` is
`countrySizes[countryName]`. Every mesh has a centroid. -/
def addLabel (visitedCountries : List String) (totalArea : ℚ) (countryName : String)
    (mesh : Mesh) : Mesh :=
  let isMajor := majorCountries.contains countryName || decide (mesh.area > totalArea / 200) ||
    visitedCountries.contains countryName
  let labelDiv := newElement isMajor
  let labelDiv :=
    if countryName ∈ visitedCountries then
      { labelDiv with color := "#ff9900", fontWeight := "bold" }
    else labelDiv
  { mesh with label := some labelDiv, isLabelMajor := isMajor }

/-- The function `addCountryLabels` (lines 646-713). The order in which the
labels are created (largest country first) does not show in the state. -/
def addCountryLabels (s : State) : State :=
  let totalArea := (s.countryMeshes.map (fun e => e.2.area)).sum
  { s with countryMeshes :=
      s.countryMeshes.map (fun e => (e.1, addLabel s.visitedCountries totalArea e.1 e.2)) }

/-- A country mesh as `createCountryMesh` returns it (lines 211-264), with its
size. -/
def rawMesh (countryName : String) (area : ℚ) : String × Mesh :=
  (countryName,
    { country := countryName
      material := { color := 0x3a7a50, opacity := 3 / 10 }
      area := area
      label := none
      isLabelMajor := false })

/-- Example: three countries after `addCountryLabels`, none visited. Russia is on
the list of major countries, Greenland is major by its size only (100 is more
than 1101 / 200), Luxembourg is minor. -/
def sAtlas : State :=
  addCountryLabels
    { visitedCountries := []
      localStorage := none
      globe := true
      countryMeshes := [rawMesh "Russia" 1000, rawMesh "Greenland" 100, rawMesh "Luxembourg" 1]
      visibleLabels := [] }

/-- Example: two major labels far apart on the screen whose camera distances,
100.1 and 100.2, round to the same integer. -/
def envRound : Env :=
  { dot := fun _ => 1
    screenPosX := fun n => if n = "P" then -(1 / 2) else 1 / 2
    screenPosY := fun _ => 0
    distanceToCamera := fun n => if n = "P" then 1001 / 10 else 1002 / 10
    clientWidth := 800
    clientHeight := 600
    offsetWidth := fun _ => 0
    offsetHeight := fun _ => 0
    sqrt := qsqrt }

/-- The state of the example `envRound`. -/
def sRound : State :=
  { visitedCountries := []
    localStorage := none
    globe := true
    countryMeshes := [labelled "P" true, labelled "Q" true]
    visibleLabels := [] }


/-! ## Lemmas on `sort` -/

theorem insertFromRight_perm {α : Type} (cmp : α → α → ℚ) (x : α) (l : List α) :
    (insertFromRight cmp x l).Perm (x :: l) := by
  induction l with
  | nil => simp [insertFromRight]
  | cons t rest ih =>
    unfold insertFromRight
    split
    · exact (List.Perm.cons t ih).trans (List.Perm.swap x t rest)
    · exact List.Perm.refl _

theorem foldl_insertFromRight_perm {α : Type} (cmp : α → α → ℚ) (l acc : List α) :
    (l.foldl (fun sortedRev element => insertFromRight cmp element sortedRev) acc).Perm
      (l ++ acc) := by
  induction l generalizing acc with
  | nil => simp
  | cons x xs ih =>
    simp only [List.foldl_cons, List.cons_append]
    refine (ih _).trans ?_
    refine (List.Perm.append_left xs (insertFromRight_perm cmp x acc)).trans ?_
    exact List.perm_middle

theorem sort_perm {α : Type} (cmp : α → α → ℚ) (l : List α) : (sort cmp l).Perm l := by
  unfold sort
  refine (List.reverse_perm _).trans ?_
  simpa using foldl_insertFromRight_perm cmp l []

theorem mem_sort {α : Type} (cmp : α → α → ℚ) (l : List α) (x : α) :
    x ∈ sort cmp l ↔ x ∈ l :=
  (sort_perm cmp l).mem_iff

theorem length_sort {α : Type} (cmp : α → α → ℚ) (l : List α) :
    (sort cmp l).length = l.length :=
  (sort_perm cmp l).length_eq

/-! ## Lemmas on the first loop -/

theorem scanLabels_snd (env : Env) (v : List String) (ms : List (String × Mesh)) :
    (scanLabels env v ms).2 = ms.map (hideFar env) := by
  induction ms with
  | nil => rfl
  | cons e rest ih =>
    obtain ⟨k, m⟩ := e
    simp only [scanLabels, List.map_cons, hideFar]
    cases hl : m.label with
    | none => simp [ih]
    | some el =>
      by_cases hd : env.dot k > 0
      · by_cases hb : inViewBounds env k = true <;> simp [hd, hb, ih]
      · simp [hd, ih]

theorem mem_scanLabels (env : Env) (v : List String) (ms : List (String × Mesh))
    (info : LabelInfo) (h : info ∈ (scanLabels env v ms).1) :
    ∃ m, (info.countryName, m) ∈ ms ∧ m.label ≠ none ∧ env.dot info.countryName > 0 ∧
      inViewBounds env info.countryName = true ∧ info = labelInfoOf env v info.countryName m := by
  induction ms with
  | nil => simp [scanLabels] at h
  | cons e rest ih =>
    obtain ⟨k, m⟩ := e
    simp only [scanLabels] at h
    cases hl : m.label with
    | none =>
      rw [hl] at h
      obtain ⟨m', hm, rest'⟩ := ih h
      exact ⟨m', List.mem_cons_of_mem _ hm, rest'⟩
    | some el =>
      rw [hl] at h
      by_cases hd : env.dot k > 0
      · by_cases hb : inViewBounds env k = true
        · simp only [hd, hb, if_true, List.mem_cons] at h
          rcases h with h | h
          · subst h
            exact ⟨m, by simp [labelInfoOf], by simp [hl], by simpa [labelInfoOf] using hd,
              by simpa [labelInfoOf] using hb, by simp [labelInfoOf]⟩
          · obtain ⟨m', hm, rest'⟩ := ih h
            exact ⟨m', List.mem_cons_of_mem _ hm, rest'⟩
        · simp only [hd, hb, if_true] at h
          obtain ⟨m', hm, rest'⟩ := ih h
          exact ⟨m', List.mem_cons_of_mem _ hm, rest'⟩
      · simp only [hd, if_false] at h
        obtain ⟨m', hm, rest'⟩ := ih h
        exact ⟨m', List.mem_cons_of_mem _ hm, rest'⟩

/-! ## Lemmas on the second loop -/

theorem placeLabel_eq (env : Env) (maxLabels : ℕ) (p : Placement) (info : LabelInfo) :
    placeLabel env maxLabels p info =
      match verdict env maxLabels p info with
      | none =>
        { p with countryMeshes := setStyle info.countryName (writeStyle none) p.countryMeshes }
      | some z =>
        { labelBoxes := p.labelBoxes ++ [boxOf env info]
          labelCount := p.labelCount + 1
          visibleLabels := p.visibleLabels ++ [info.countryName]
          countryMeshes := setStyle info.countryName (writeStyle (some z)) p.countryMeshes } := by
  unfold placeLabel verdict
  by_cases h1 : p.labelCount ≥ maxLabels
  · simp only [h1, if_true]; rfl
  · simp only [h1, if_false]
    cases h2 : p.labelBoxes.any (fun existingBox => overlaps (boxOf env info) existingBox)
    · simp; rfl
    · simp; rfl

theorem placeLabel_countryMeshes (env : Env) (maxLabels : ℕ) (p : Placement) (info : LabelInfo) :
    (placeLabel env maxLabels p info).countryMeshes =
      setStyle info.countryName (writeStyle (verdict env maxLabels p info)) p.countryMeshes := by
  rw [placeLabel_eq]
  cases verdict env maxLabels p info <;> rfl

theorem verdict_congr (env : Env) (maxLabels : ℕ) (p q : Placement) (info : LabelInfo)
    (h : SameDecisions p q) : verdict env maxLabels p info = verdict env maxLabels q info := by
  obtain ⟨h1, h2, _⟩ := h
  simp [verdict, h1, h2]

theorem placeLabel_congr (env : Env) (maxLabels : ℕ) (p q : Placement) (info : LabelInfo)
    (h : SameDecisions p q) :
    SameDecisions (placeLabel env maxLabels p info) (placeLabel env maxLabels q info) := by
  rw [placeLabel_eq, placeLabel_eq, verdict_congr env maxLabels p q info h]
  obtain ⟨h1, h2, h3⟩ := h
  cases verdict env maxLabels q info <;> simp [SameDecisions, h1, h2, h3]

theorem foldl_placeLabel_congr (env : Env) (maxLabels : ℕ) (l : List LabelInfo)
    (p q : Placement) (h : SameDecisions p q) :
    SameDecisions (l.foldl (placeLabel env maxLabels) p) (l.foldl (placeLabel env maxLabels) q) := by
  induction l generalizing p q with
  | nil => exact h
  | cons x xs ih => exact ih _ _ (placeLabel_congr env maxLabels p q x h)

theorem styleTrace_congr (env : Env) (maxLabels : ℕ) (l : List LabelInfo)
    (p q : Placement) (h : SameDecisions p q) :
    styleTrace env maxLabels p l = styleTrace env maxLabels q l := by
  induction l generalizing p q with
  | nil => rfl
  | cons x xs ih =>
    simp only [styleTrace]
    rw [verdict_congr env maxLabels p q x h, ih _ _ (placeLabel_congr env maxLabels p q x h)]

theorem styleTrace_names (env : Env) (maxLabels : ℕ) (l : List LabelInfo) (p : Placement) :
    (styleTrace env maxLabels p l).map Prod.fst = l.map LabelInfo.countryName := by
  induction l generalizing p with
  | nil => rfl
  | cons x xs ih => simp [styleTrace, ih]

theorem netStyle_nil (key : String) (el : Element) : netStyle [] key el = el := rfl

theorem netStyle_append (ws ws' : List (String × Option ℤ)) (key : String) (el : Element) :
    netStyle (ws ++ ws') key el = netStyle ws' key (netStyle ws key el) := by
  simp [netStyle, List.foldl_append]

theorem netStyle_cons (w : String × Option ℤ) (ws : List (String × Option ℤ)) (key : String)
    (el : Element) :
    netStyle (w :: ws) key el = netStyle ws key (if w.1 = key then writeStyle w.2 el else el) := rfl

theorem entryNet_nil (e : String × Mesh) : entryNet [] e = e := by
  obtain ⟨k, ⟨c, mat, a, l, maj⟩⟩ := e
  cases l <;> rfl

theorem entryNet_append (ws ws' : List (String × Option ℤ)) (e : String × Mesh) :
    entryNet ws' (entryNet ws e) = entryNet (ws ++ ws') e := by
  obtain ⟨k, ⟨c, mat, a, l, maj⟩⟩ := e
  cases l with
  | none => rfl
  | some el => simp [entryNet, netStyle_append]

theorem setStyle_eq_map (name : String) (o : Option ℤ) (ms : List (String × Mesh)) :
    setStyle name (writeStyle o) ms = ms.map (entryNet [(name, o)]) := by
  unfold setStyle updateMesh
  apply List.map_congr_left
  intro e _
  obtain ⟨k, ⟨c, mat, a, l, maj⟩⟩ := e
  by_cases h : k = name
  · subst h
    cases l <;> simp [entryNet, netStyle_cons, netStyle_nil]
  · have h2 : ¬ name = k := fun h3 => h h3.symm
    cases l <;> simp [entryNet, netStyle_cons, netStyle_nil, h, h2]

theorem foldl_placeLabel_countryMeshes (env : Env) (maxLabels : ℕ) (l : List LabelInfo)
    (p : Placement) :
    (l.foldl (placeLabel env maxLabels) p).countryMeshes =
      p.countryMeshes.map (entryNet (styleTrace env maxLabels p l)) := by
  induction l generalizing p with
  | nil =>
    simp only [List.foldl_nil, styleTrace]
    have h : p.countryMeshes.map (entryNet []) = p.countryMeshes.map id :=
      List.map_congr_left (fun e _ => entryNet_nil e)
    rw [h, List.map_id]
  | cons x xs ih =>
    simp only [List.foldl_cons, styleTrace]
    rw [ih, placeLabel_countryMeshes, setStyle_eq_map, List.map_map]
    apply List.map_congr_left
    intro e _
    simp only [Function.comp]
    rw [entryNet_append]
    rfl

theorem foldl_placeLabel_visibleLabels (env : Env) (maxLabels : ℕ) (l : List LabelInfo)
    (p : Placement) :
    (l.foldl (placeLabel env maxLabels) p).visibleLabels =
      p.visibleLabels ++
        ((styleTrace env maxLabels p l).filter (fun w => w.2.isSome)).map Prod.fst := by
  induction l generalizing p with
  | nil => simp [styleTrace]
  | cons x xs ih =>
    simp only [List.foldl_cons, styleTrace]
    rw [ih, placeLabel_eq]
    cases hv : verdict env maxLabels p x with
    | none => simp [List.filter_cons]
    | some z => simp [List.filter_cons]

theorem boxOf_eq_placementRect (env : Env) (info : LabelInfo) (h : WellPlaced env info) :
    boxOf env info = placementRect env info.countryName := by
  obtain ⟨hx, hy⟩ := h
  simp only [boxOf, placementRect, hx, hy, Box.mk.injEq]
  refine ⟨?_, ?_, ?_, ?_⟩ <;> ring

theorem wellPlaced_of_mem_scanLabels (env : Env) (v : List String) (ms : List (String × Mesh))
    (info : LabelInfo) (h : info ∈ (scanLabels env v ms).1) : WellPlaced env info := by
  obtain ⟨m, _, _, _, _, he⟩ := mem_scanLabels env v ms info h
  rw [he]
  exact ⟨rfl, rfl⟩

theorem placeLabel_inv (env : Env) (maxLabels : ℕ) (p : Placement) (info : LabelInfo)
    (hw : WellPlaced env info) (hp : PlacementInv env maxLabels p) :
    PlacementInv env maxLabels (placeLabel env maxLabels p info) := by
  obtain ⟨h1, h2, h3, h4⟩ := hp
  rw [placeLabel_eq]
  cases hv : verdict env maxLabels p info with
  | none => exact ⟨h1, h2, h3, h4⟩
  | some z =>
    unfold verdict at hv
    by_cases hc : p.labelCount ≥ maxLabels
    · simp [hc] at hv
    · simp only [hc, if_false] at hv
      cases ha : p.labelBoxes.any (fun existingBox => overlaps (boxOf env info) existingBox) with
      | true => simp [ha] at hv
      | false =>
        refine ⟨by simp only; omega, by simp [h2], ?_, ?_⟩
        · simp [h3, boxOf_eq_placementRect env info hw]
        · simp only
          rw [List.pairwise_append]
          refine ⟨h4, List.pairwise_singleton _ _, ?_⟩
          intro a ha' b hb
          rw [List.mem_singleton] at hb
          subst hb
          rw [List.any_eq_false] at ha
          simpa using ha a ha'

theorem foldl_placeLabel_inv (env : Env) (maxLabels : ℕ) (l : List LabelInfo) (p : Placement)
    (hw : ∀ info ∈ l, WellPlaced env info) (hp : PlacementInv env maxLabels p) :
    PlacementInv env maxLabels (l.foldl (placeLabel env maxLabels) p) := by
  induction l generalizing p with
  | nil => exact hp
  | cons x xs ih =>
    exact ih _ (fun i hi => hw i (List.mem_cons_of_mem _ hi))
      (placeLabel_inv env maxLabels p x (hw x (List.mem_cons_self _ _)) hp)

theorem overlaps_false_disjoint (a b : Box) (h : overlaps a b = false) (px py : ℚ) :
    ¬ (a.Contains px py ∧ b.Contains px py) := by
  rintro ⟨⟨a1, a2, a3, a4⟩, ⟨b1, b2, b3, b4⟩⟩
  simp only [overlaps, Bool.not_eq_false', Bool.or_eq_true, decide_eq_true_eq] at h
  rcases h with ((h | h) | h) | h <;> linarith

theorem overlaps_comm (a b : Box) : overlaps a b = overlaps b a := by
  rw [Bool.eq_iff_iff]
  simp only [overlaps, gt_iff_lt, Bool.not_eq_true', Bool.or_eq_false_iff,
    decide_eq_false_iff_not]
  tauto

/-- The start of the second loop satisfies its invariant. -/
theorem placementInv_init (env : Env) (maxLabels : ℕ) (ms : List (String × Mesh)) :
    PlacementInv env maxLabels
      { labelBoxes := [], labelCount := 0, visibleLabels := [], countryMeshes := ms } :=
  ⟨Nat.zero_le _, rfl, rfl, List.Pairwise.nil⟩

theorem updateLabelVisibility_inv (env : Env) (s : State) (hg : s.globe = true) :
    ∃ p : Placement,
      PlacementInv env (min 15 (potentialVisibleLabels env s).length) p ∧
      (updateLabelVisibility env s).visibleLabels = p.visibleLabels := by
  refine ⟨_, foldl_placeLabel_inv env _ (potentialVisibleLabels env s) _ ?_
    (placementInv_init env _ (scanLabels env s.visitedCountries s.countryMeshes).2), ?_⟩
  · intro info hi
    exact wellPlaced_of_mem_scanLabels env _ _ info ((mem_sort _ _ _).1 hi)
  · simp [updateLabelVisibility, hg, potentialVisibleLabels]

/-- C1: one pass of `updateLabelVisibility` leaves at most 15 names in
`visibleLabels`, and at most as many as there are candidates. -/
theorem visibleLabels_length_le (env : Env) (s : State) (hg : s.globe = true) :
    (updateLabelVisibility env s).visibleLabels.length ≤ 15 ∧
      (updateLabelVisibility env s).visibleLabels.length ≤
        (scanLabels env s.visitedCountries s.countryMeshes).1.length := by
  obtain ⟨p, ⟨h1, h2, _, _⟩, hv⟩ := updateLabelVisibility_inv env s hg
  rw [hv, h2]
  have hl : (potentialVisibleLabels env s).length =
      (scanLabels env s.visitedCountries s.countryMeshes).1.length := length_sort _ _
  rw [hl] at h1
  exact ⟨le_trans h1 (min_le_left _ _), le_trans h1 (min_le_right _ _)⟩

/-- C2: the placement rectangles of the labels that one pass of
`updateLabelVisibility` marks visible are pairwise disjoint: the overlap test of
the code fails for each pair, and no point lies in both closed rectangles. -/
theorem visibleLabels_pairwise_disjoint (env : Env) (s : State) (hg : s.globe = true) :
    (updateLabelVisibility env s).visibleLabels.Pairwise (fun a b =>
      overlaps (placementRect env a) (placementRect env b) = false ∧
      ∀ px py : ℚ,
        ¬ ((placementRect env a).Contains px py ∧ (placementRect env b).Contains px py)) := by
  obtain ⟨p, ⟨_, _, h3, h4⟩, hv⟩ := updateLabelVisibility_inv env s hg
  rw [hv]
  rw [h3, List.pairwise_map] at h4
  refine h4.imp ?_
  intro a b hab
  rw [overlaps_comm] at hab
  exact ⟨hab, overlaps_false_disjoint _ _ hab⟩

theorem netStyle_of_not_mem (ws : List (String × Option ℤ)) (key : String) (el : Element)
    (h : key ∉ ws.map Prod.fst) : netStyle ws key el = el := by
  induction ws generalizing el with
  | nil => rfl
  | cons w ws ih =>
    simp only [List.map_cons, List.mem_cons, not_or] at h
    rw [netStyle_cons, if_neg (fun hw => h.1 hw.symm)]
    exact ih el h.2

theorem entryNet_of_not_mem (ws : List (String × Option ℤ)) (e : String × Mesh)
    (h : e.1 ∉ ws.map Prod.fst) : entryNet ws e = e := by
  obtain ⟨k, ⟨c, mat, a, l, maj⟩⟩ := e
  cases l with
  | none => rfl
  | some el => simp [entryNet, netStyle_of_not_mem ws k el h]

theorem netStyle_eq_override (ws : List (String × Option ℤ)) (key : String) :
    ∃ o z, ∀ el, netStyle ws key el = override o z el := by
  induction ws with
  | nil => exact ⟨none, none, fun el => rfl⟩
  | cons w ws ih =>
    obtain ⟨o, z, h⟩ := ih
    obtain ⟨name, v⟩ := w
    by_cases hk : name = key
    · cases v with
      | none =>
        refine ⟨some (o.getD "0"), z, fun el => ?_⟩
        rw [netStyle_cons, if_pos hk, h]
        cases o <;> cases z <;> rfl
      | some i =>
        refine ⟨some (o.getD "1"), some (z.getD i), fun el => ?_⟩
        rw [netStyle_cons, if_pos hk, h]
        cases o <;> cases z <;> rfl
    · refine ⟨o, z, fun el => ?_⟩
      rw [netStyle_cons, if_neg hk, h]

theorem netStyle_idem (ws : List (String × Option ℤ)) (key : String) (el : Element) :
    netStyle ws key (netStyle ws key el) = netStyle ws key el := by
  obtain ⟨o, z, h⟩ := netStyle_eq_override ws key
  rw [h, h]
  cases o <;> cases z <;> rfl

theorem entryNet_idem (ws : List (String × Option ℤ)) (e : String × Mesh) :
    entryNet ws (entryNet ws e) = entryNet ws e := by
  obtain ⟨k, ⟨c, mat, a, l, maj⟩⟩ := e
  cases l with
  | none => rfl
  | some el => simp [entryNet, netStyle_idem]

theorem hideFar_of_near (env : Env) (e : String × Mesh) (h : env.dot e.1 > 0) :
    hideFar env e = e := by
  unfold hideFar
  cases e.2.label <;> simp [h]

theorem hideFar_idem (env : Env) (e : String × Mesh) : hideFar env (hideFar env e) = hideFar env e := by
  obtain ⟨k, ⟨c, mat, a, l, maj⟩⟩ := e
  cases l with
  | none => rfl
  | some el =>
    by_cases h : env.dot k > 0
    · simp [hideFar, h]
    · simp [hideFar, h]

theorem entryNet_fst (ws : List (String × Option ℤ)) (e : String × Mesh) :
    (entryNet ws e).1 = e.1 := rfl

theorem hideFar_fst (env : Env) (e : String × Mesh) : (hideFar env e).1 = e.1 := by
  unfold hideFar
  cases e.2.label with
  | none => rfl
  | some el => by_cases h : env.dot e.1 > 0 <;> simp [h]

/-- One pass acts on every entry by `hideFar` followed by the net style write,
when every style write goes to a near-side label. -/
theorem pass_entry_idem (env : Env) (ws : List (String × Option ℤ))
    (hws : ∀ k ∈ ws.map Prod.fst, env.dot k > 0) (e : String × Mesh) :
    entryNet ws (hideFar env (entryNet ws (hideFar env e))) = entryNet ws (hideFar env e) := by
  by_cases h : env.dot e.1 > 0
  · rw [hideFar_of_near env e h, hideFar_of_near env _ (by simpa [entryNet_fst] using h),
      entryNet_idem]
  · have hk : e.1 ∉ ws.map Prod.fst := fun hm => h (hws _ hm)
    have h1 : entryNet ws (hideFar env e) = hideFar env e :=
      entryNet_of_not_mem ws _ (by rw [hideFar_fst]; exact hk)
    rw [h1, hideFar_idem, h1]

/-- The candidates and their records do not depend on the style of the labels. -/
theorem scanLabels_fst_map (env : Env) (v : List String) (g : String × Mesh → String × Mesh)
    (hg : ∀ e, (g e).1 = e.1 ∧ (g e).2.isLabelMajor = e.2.isLabelMajor ∧
      ((g e).2.label = none ↔ e.2.label = none))
    (ms : List (String × Mesh)) :
    (scanLabels env v (ms.map g)).1 = (scanLabels env v ms).1 := by
  induction ms with
  | nil => rfl
  | cons e rest ih =>
    obtain ⟨h1, h2, h3⟩ := hg e
    rw [List.map_cons]
    generalize hge : g e = ge at h1 h2 h3
    obtain ⟨k, m⟩ := e
    obtain ⟨k', m'⟩ := ge
    simp only at h1 h2 h3
    subst h1
    simp only [scanLabels]
    rw [ih]
    cases hl : m.label with
    | none =>
      rw [h3.2 hl]
    | some el =>
      cases hl' : m'.label with
      | none => rw [h3.1 hl'] at hl; cases hl
      | some el' =>
        simp only [labelInfoOf, priorityOf, h2]
        by_cases hd : env.dot k' > 0
        · by_cases hb : inViewBounds env k' = true <;> simp [hd, hb]
        · simp [hd]

theorem hideFar_preserves (env : Env) (e : String × Mesh) :
    (hideFar env e).1 = e.1 ∧ (hideFar env e).2.isLabelMajor = e.2.isLabelMajor ∧
      ((hideFar env e).2.label = none ↔ e.2.label = none) := by
  obtain ⟨k, ⟨c, mat, a, l, maj⟩⟩ := e
  cases l with
  | none => simp [hideFar]
  | some el => by_cases h : env.dot k > 0 <;> simp [hideFar, h]

theorem entryNet_preserves (ws : List (String × Option ℤ)) (e : String × Mesh) :
    (entryNet ws e).1 = e.1 ∧ (entryNet ws e).2.isLabelMajor = e.2.isLabelMajor ∧
      ((entryNet ws e).2.label = none ↔ e.2.label = none) := by
  obtain ⟨k, ⟨c, mat, a, l, maj⟩⟩ := e
  cases l <;> simp [entryNet]

theorem updateLabelVisibility_countryMeshes (env : Env) (s : State) (hg : s.globe = true) :
    (updateLabelVisibility env s).countryMeshes =
      s.countryMeshes.map (fun e => entryNet (passWrites env s) (hideFar env e)) := by
  simp only [updateLabelVisibility, hg, Bool.not_true, Bool.false_eq_true, if_false]
  rw [foldl_placeLabel_countryMeshes]
  show (scanLabels env s.visitedCountries s.countryMeshes).2.map (entryNet (passWrites env s)) = _
  rw [scanLabels_snd, List.map_map]
  rfl

theorem updateLabelVisibility_visibleLabels (env : Env) (s : State) (hg : s.globe = true) :
    (updateLabelVisibility env s).visibleLabels =
      ((passWrites env s).filter (fun w => w.2.isSome)).map Prod.fst := by
  simp only [updateLabelVisibility, hg, Bool.not_true, Bool.false_eq_true, if_false]
  rw [foldl_placeLabel_visibleLabels]
  rfl

theorem passWrites_names (env : Env) (s : State) :
    (passWrites env s).map Prod.fst = (potentialVisibleLabels env s).map LabelInfo.countryName :=
  styleTrace_names _ _ _ _

theorem passWrites_candidate (env : Env) (s : State) (k : String)
    (h : k ∈ (passWrites env s).map Prod.fst) :
    env.dot k > 0 ∧ inViewBounds env k = true := by
  rw [passWrites_names, List.mem_map] at h
  obtain ⟨info, hi, rfl⟩ := h
  obtain ⟨m, _, _, hd, hb, _⟩ := mem_scanLabels env _ _ info ((mem_sort _ _ _).1 hi)
  exact ⟨hd, hb⟩

theorem mem_visibleLabels_candidate (env : Env) (s : State) (hg : s.globe = true) (k : String)
    (h : k ∈ (updateLabelVisibility env s).visibleLabels) :
    env.dot k > 0 ∧ inViewBounds env k = true := by
  rw [updateLabelVisibility_visibleLabels env s hg] at h
  apply passWrites_candidate env s k
  rw [List.mem_map] at h ⊢
  obtain ⟨w, hw, rfl⟩ := h
  exact ⟨w, (List.mem_filter.1 hw).1, rfl⟩

/-- C3: a label whose direction has dot product `≤ 0` with the direction to the
camera is hidden by one pass of `updateLabelVisibility` (its opacity becomes
`'0'`, nothing else of its entry changes) and its name is not in
`visibleLabels`, whatever its flags and its opacity before the pass. -/
theorem far_label_hidden (env : Env) (s : State) (i : ℕ) (name : String) (mesh : Mesh)
    (el : Element) (hg : s.globe = true) (hi : s.countryMeshes[i]? = some (name, mesh))
    (hl : mesh.label = some el) (hd : env.dot name ≤ 0) :
    (updateLabelVisibility env s).countryMeshes[i]? =
        some (name, { mesh with label := some { el with opacity := "0" } }) ∧
      name ∉ (updateLabelVisibility env s).visibleLabels := by
  constructor
  · rw [updateLabelVisibility_countryMeshes env s hg, List.getElem?_map, hi, Option.map_some']
    have hk : (hideFar env (name, mesh)).1 ∉ (passWrites env s).map Prod.fst := by
      rw [hideFar_fst]
      intro hm
      exact absurd (passWrites_candidate env s name hm).1 (not_lt.2 hd)
    rw [entryNet_of_not_mem _ _ hk]
    simp [hideFar, hl, not_lt.2 hd]
  · intro hm
    exact absurd (mem_visibleLabels_candidate env s hg name hm).1 (not_lt.2 hd)

/-- What the code does with a near-side label outside the view bounds: the pass
does not touch its entry, so its opacity stays what it was. -/
theorem outOfBounds_label_untouched (env : Env) (s : State) (i : ℕ) (e : String × Mesh)
    (hg : s.globe = true) (hi : s.countryMeshes[i]? = some e)
    (hd : env.dot e.1 > 0) (hb : inViewBounds env e.1 = false) :
    (updateLabelVisibility env s).countryMeshes[i]? = some e := by
  rw [updateLabelVisibility_countryMeshes env s hg, List.getElem?_map, hi, Option.map_some',
    hideFar_of_near env e hd]
  have hk : e.1 ∉ (passWrites env s).map Prod.fst := by
    intro hm
    have := (passWrites_candidate env s e.1 hm).2
    rw [hb] at this
    cases this
  rw [entryNet_of_not_mem _ _ hk]

theorem potentialVisibleLabels_update (env : Env) (s : State) :
    potentialVisibleLabels env (updateLabelVisibility env s) = potentialVisibleLabels env s := by
  cases hg : s.globe with
  | false => simp [updateLabelVisibility, hg]
  | true =>
    unfold potentialVisibleLabels
    rw [updateLabelVisibility_countryMeshes env s hg]
    have hv : (updateLabelVisibility env s).visitedCountries = s.visitedCountries := by
      simp [updateLabelVisibility, hg]
    rw [hv, scanLabels_fst_map]
    intro e
    obtain ⟨a1, a2, a3⟩ := hideFar_preserves env e
    obtain ⟨b1, b2, b3⟩ := entryNet_preserves (passWrites env s) (hideFar env e)
    exact ⟨b1.trans a1, b2.trans a2, b3.trans a3⟩

theorem passWrites_update (env : Env) (s : State) :
    passWrites env (updateLabelVisibility env s) = passWrites env s := by
  unfold passWrites
  rw [potentialVisibleLabels_update]
  exact styleTrace_congr _ _ _ _ _ ⟨rfl, rfl, rfl⟩

/-- C7: a second pass of `updateLabelVisibility` on the same inputs changes
nothing: the state after it (the `visibleLabels` list, every label's opacity and
z-index) is the state after the first pass, whatever the styles were before, and
it walks the same candidate records (same screen coordinates). -/
theorem updateLabelVisibility_idempotent (env : Env) (s : State) :
    updateLabelVisibility env (updateLabelVisibility env s) = updateLabelVisibility env s ∧
      potentialVisibleLabels env (updateLabelVisibility env s) = potentialVisibleLabels env s := by
  refine ⟨?_, potentialVisibleLabels_update env s⟩
  cases hg : s.globe with
  | false => simp [updateLabelVisibility, hg]
  | true =>
    have hg' : (updateLabelVisibility env s).globe = true := by
      simp [updateLabelVisibility, hg]
    have hm := updateLabelVisibility_countryMeshes env (updateLabelVisibility env s) hg'
    have hv := updateLabelVisibility_visibleLabels env (updateLabelVisibility env s) hg'
    rw [passWrites_update] at hm hv
    rw [← updateLabelVisibility_visibleLabels env s hg] at hv
    rw [updateLabelVisibility_countryMeshes env s hg, List.map_map] at hm
    have hm' : (updateLabelVisibility env (updateLabelVisibility env s)).countryMeshes =
        (updateLabelVisibility env s).countryMeshes := by
      rw [hm, updateLabelVisibility_countryMeshes env s hg]
      apply List.map_congr_left
      intro e _
      exact pass_entry_idem env _ (fun k hk => (passWrites_candidate env s k hk).1) e
    have h1 : (updateLabelVisibility env (updateLabelVisibility env s)).visitedCountries =
        (updateLabelVisibility env s).visitedCountries := by
      simp [updateLabelVisibility, hg]
    have h2 : (updateLabelVisibility env (updateLabelVisibility env s)).localStorage =
        (updateLabelVisibility env s).localStorage := by
      simp [updateLabelVisibility, hg]
    have h3 : (updateLabelVisibility env (updateLabelVisibility env s)).globe =
        (updateLabelVisibility env s).globe := by
      simp [updateLabelVisibility, hg]
    generalize updateLabelVisibility env (updateLabelVisibility env s) = t at *
    generalize updateLabelVisibility env s = u at *
    cases t; cases u
    simp only at h1 h2 h3 hm' hv
    simp [h1, h2, h3, hm', hv]

/-! ## Persistence -/

theorem foldl_setAdd_of_nodup (l acc : List String) (hl : l.Nodup)
    (hd : ∀ x ∈ l, x ∉ acc) : l.foldl setAdd acc = acc ++ l := by
  induction l generalizing acc with
  | nil => simp
  | cons x xs ih =>
    rw [List.nodup_cons] at hl
    have hx : x ∉ acc := hd x (List.mem_cons_self _ _)
    simp only [List.foldl_cons, setAdd, hx, if_false]
    rw [ih (acc ++ [x]) hl.2]
    · simp
    · intro y hy hm
      rw [List.mem_append, List.mem_singleton] at hm
      rcases hm with hm | hm
      · exact hd y (List.mem_cons_of_mem _ hy) hm
      · exact hl.1 (hm ▸ hy)

theorem reload_of_stored (s : State) (l : List String) (hs : s.localStorage = some l)
    (hl : l.Nodup) : (reload s).visitedCountries = l := by
  simp only [reload, loadVisitedCountries, hs]
  rw [foldl_setAdd_of_nodup l [] hl (fun _ _ => List.not_mem_nil _)]
  simp

theorem reload_of_absent (s : State) (hs : s.localStorage = none) :
    (reload s).visitedCountries = [] := by
  simp [reload, loadVisitedCountries, hs]

theorem setAdd_nodup (set : List String) (value : String) (h : set.Nodup) :
    (setAdd set value).Nodup := by
  unfold setAdd
  split
  · exact h
  · rename_i hv
    rw [List.nodup_append]
    refine ⟨h, List.nodup_singleton _, ?_⟩
    intro a ha hb
    rw [List.mem_singleton] at hb
    exact hv (hb ▸ ha)

theorem setDelete_nodup (set : List String) (value : String) (h : set.Nodup) :
    (setDelete set value).Nodup :=
  h.filter _

theorem mem_setAdd (set : List String) (value x : String) :
    x ∈ setAdd set value ↔ x ∈ set ∨ x = value := by
  unfold setAdd
  split
  · rename_i hv
    constructor
    · exact Or.inl
    · rintro (h | h)
      · exact h
      · exact h ▸ hv
  · simp

theorem mem_setDelete (set : List String) (value x : String) :
    x ∈ setDelete set value ↔ x ∈ set ∧ x ≠ value := by
  simp [setDelete]

theorem toggleVisitedCountry_visitedCountries (countryName meshKey : String) (s : State) :
    (toggleVisitedCountry countryName meshKey s).visitedCountries =
      if countryName ∈ s.visitedCountries then setDelete s.visitedCountries countryName
      else setAdd s.visitedCountries countryName := by
  unfold toggleVisitedCountry saveVisitedCountries
  split <;> rfl

theorem toggleVisitedCountry_localStorage (countryName meshKey : String) (s : State) :
    (toggleVisitedCountry countryName meshKey s).localStorage =
      some (toggleVisitedCountry countryName meshKey s).visitedCountries := by
  unfold toggleVisitedCountry saveVisitedCountries
  split <;> rfl

/-- C8: persistence round trip. For a visited set `S` (a list without
repetition), `saveVisitedCountries` stores `S` as the list under the key, a
fresh load into an empty visited set yields exactly `S`, and a load with the
key absent leaves the visited set empty. -/
theorem save_load_roundtrip (s : State) (hS : s.visitedCountries.Nodup) :
    (saveVisitedCountries s).localStorage = some s.visitedCountries ∧
      (reload (saveVisitedCountries s)).visitedCountries = s.visitedCountries ∧
      (reload { s with localStorage := none }).visitedCountries = [] :=
  ⟨rfl, reload_of_stored _ _ rfl hS, reload_of_absent _ rfl⟩

/-- C9: after `toggleVisitedCountry` and after `resetVisitedCountries` a fresh
load of the store yields exactly the current visited set; the toggle flips the
membership of `countryName` and of no other name and stores the whole set, the
reset empties the set and removes the key. -/
theorem persisted_agrees_with_memory (s : State) (countryName meshKey : String)
    (hS : s.visitedCountries.Nodup) :
    ((reload (toggleVisitedCountry countryName meshKey s)).visitedCountries =
        (toggleVisitedCountry countryName meshKey s).visitedCountries ∧
      (countryName ∈ (toggleVisitedCountry countryName meshKey s).visitedCountries ↔
        countryName ∉ s.visitedCountries) ∧
      (∀ x, x ≠ countryName →
        (x ∈ (toggleVisitedCountry countryName meshKey s).visitedCountries ↔
          x ∈ s.visitedCountries)) ∧
      (toggleVisitedCountry countryName meshKey s).localStorage =
        some (toggleVisitedCountry countryName meshKey s).visitedCountries) ∧
    ((reload (resetVisitedCountries s)).visitedCountries =
        (resetVisitedCountries s).visitedCountries ∧
      (resetVisitedCountries s).visitedCountries = [] ∧
      (resetVisitedCountries s).localStorage = none) := by
  refine ⟨⟨?_, ?_, ?_, toggleVisitedCountry_localStorage _ _ _⟩, ?_, rfl, rfl⟩
  · apply reload_of_stored _ _ (toggleVisitedCountry_localStorage _ _ _)
    rw [toggleVisitedCountry_visitedCountries]
    split
    · exact setDelete_nodup _ _ hS
    · exact setAdd_nodup _ _ hS
  · rw [toggleVisitedCountry_visitedCountries]
    split
    · rename_i h
      simp [mem_setDelete, h]
    · rename_i h
      simp [mem_setAdd, h]
  · intro x hx
    rw [toggleVisitedCountry_visitedCountries]
    split
    · simp [mem_setDelete, hx]
    · simp [mem_setAdd, hx]
  · exact reload_of_absent _ rfl

/-! ## The square root used in the examples -/

theorem bisect_sq_le (n fuel lo hi : ℕ) (h : lo * lo ≤ n) :
    bisect n fuel lo hi * bisect n fuel lo hi ≤ n := by
  induction fuel generalizing lo hi with
  | zero => exact h
  | succ k ih =>
    unfold bisect
    split
    · exact h
    · split
      · rename_i hm
        exact ih _ _ hm
      · exact ih _ _ h

theorem isqrt_sq_le (n : ℕ) : isqrt n * isqrt n ≤ n :=
  bisect_sq_le n _ 0 _ (Nat.zero_le _)

theorem qsqrt_nonneg (v : ℚ) : 0 ≤ qsqrt v := by
  unfold qsqrt
  positivity

theorem qsqrt_le (v b : ℚ) (hb : 0 ≤ b) (hv : v ≤ b * b) : qsqrt v ≤ b := by
  unfold qsqrt
  have hd : (0 : ℚ) < v.den := by exact_mod_cast v.pos
  rw [div_le_iff₀ hd]
  have hk : ((isqrt (v.num.toNat * v.den) : ℕ) : ℚ) * (isqrt (v.num.toNat * v.den) : ℕ) ≤
      ((v.num.toNat * v.den : ℕ) : ℚ) := by
    exact_mod_cast isqrt_sq_le (v.num.toNat * v.den)
  have hbd : 0 ≤ b * v.den := mul_nonneg hb hd.le
  by_cases hn : 0 ≤ v.num
  · have hnum : ((v.num.toNat : ℕ) : ℚ) = v * v.den := by
      have h1 : ((v.num.toNat : ℕ) : ℤ) = v.num := Int.toNat_of_nonneg hn
      have h2 : ((v.num.toNat : ℕ) : ℚ) = (v.num : ℚ) := by exact_mod_cast h1
      rw [h2]
      exact (Rat.mul_den_eq_num v).symm
    have hle : ((v.num.toNat * v.den : ℕ) : ℚ) ≤ (b * v.den) * (b * v.den) := by
      push_cast
      rw [hnum]
      nlinarith [mul_le_mul_of_nonneg_right hv (mul_nonneg hd.le hd.le)]
    exact abs_le_of_sq_le_sq' (by nlinarith) hbd |>.2
  · have h0 : v.num.toNat = 0 := Int.toNat_eq_zero.2 (le_of_lt (not_le.1 hn))
    have : isqrt (v.num.toNat * v.den) = 0 := by
      have := isqrt_sq_le (v.num.toNat * v.den)
      rw [h0, Nat.zero_mul] at this ⊢
      rcases Nat.mul_eq_zero.1 (Nat.le_zero.1 this) with h | h <;> exact h
    rw [this]
    simpa using hbd

/-! ## Two candidates -/

theorem sort_pair {α : Type} (cmp : α → α → ℚ) (a b : α) (hab : cmp a b < 0) (hba : cmp b a > 0) :
    sort cmp [a, b] = [a, b] ∧ sort cmp [b, a] = [a, b] := by
  constructor
  · simp [sort, insertFromRight, not_lt.2 hab.le]
  · simp [sort, insertFromRight, hba]

/-- The distance from the screen centre of a candidate is at most `13 / 10`. -/
theorem dist_le_of_inViewBounds (env : Env)
    (hs1 : ∀ v b : ℚ, 0 ≤ b → v ≤ b * b → env.sqrt v ≤ b) (k : String)
    (hb : inViewBounds env k = true) :
    env.sqrt (env.screenPosX k * env.screenPosX k + env.screenPosY k * env.screenPosY k) ≤
      13 / 10 := by
  simp only [inViewBounds, Bool.and_eq_true, decide_eq_true_eq] at hb
  obtain ⟨⟨⟨h1, h2⟩, h3⟩, h4⟩ := hb
  apply hs1 _ _ (by norm_num)
  nlinarith [mul_pos (sub_pos.2 h2) (sub_pos.2 (neg_lt.1 (neg_lt.2 h1))),
    mul_pos (sub_pos.2 h4) (sub_pos.2 (neg_lt.1 (neg_lt.2 h3)))]



theorem compare_visited_major (env : Env) (v : List String) (A B : String) (meshA meshB : Mesh)
    (hs0 : ∀ x : ℚ, 0 ≤ env.sqrt x)
    (hs1 : ∀ x b : ℚ, 0 ≤ b → x ≤ b * b → env.sqrt x ≤ b)
    (hA : A ∈ v) (hAm : meshA.isLabelMajor = false) (hB : B ∉ v) (hBm : meshB.isLabelMajor = true)
    (hbA : inViewBounds env A = true) :
    compareLabels (labelInfoOf env v A meshA) (labelInfoOf env v B meshB) < 0 ∧
      compareLabels (labelInfoOf env v B meshB) (labelInfoOf env v A meshA) > 0 := by
  have hdA := dist_le_of_inViewBounds env hs1 A hbA
  have hdB := hs0 (env.screenPosX B * env.screenPosX B + env.screenPosY B * env.screenPosY B)
  simp only [compareLabels, labelInfoOf, priorityOf, hA, hB, hAm, hBm, if_true, if_false,
    Bool.false_eq_true]
  generalize env.sqrt (env.screenPosX A * env.screenPosX A + env.screenPosY A * env.screenPosY A)
    = dA at hdA
  generalize env.sqrt (env.screenPosX B * env.screenPosX B + env.screenPosY B * env.screenPosY B)
    = dB at hdB
  constructor
  · have h1 : (0 + 500 - dB * 100) - (0 + 1000 - dA * 100) < -100 := by linarith
    rw [if_pos (by rw [abs_of_neg (by linarith)]; linarith)]
    linarith
  · have h1 : (0 + 1000 - dA * 100) - (0 + 500 - dB * 100) > 100 := by linarith
    rw [if_pos (by rw [abs_of_pos (by linarith)]; linarith)]
    linarith

/-- C5: a visited, non-major label `A` and an unvisited, major label `B` that are
the only candidates (both passed the hemisphere and view-bounds tests, in either
order of `countryMeshes`) and whose placement rectangles overlap: the pass walks
`A` first, `visibleLabels` is `[A]`, every label element of `A` gets opacity
`'1'` (and its z-index), every label element of `B` gets opacity `'0'`. The
square root is any function that is non-negative and below every `b ≥ 0` whose
square bounds its argument. -/
theorem visited_beats_major (env : Env) (s : State) (A B : String) (meshA meshB : Mesh)
    (hg : s.globe = true)
    (hs0 : ∀ x : ℚ, 0 ≤ env.sqrt x)
    (hs1 : ∀ x b : ℚ, 0 ≤ b → x ≤ b * b → env.sqrt x ≤ b)
    (hA : A ∈ s.visitedCountries) (hAm : meshA.isLabelMajor = false)
    (hB : B ∉ s.visitedCountries) (hBm : meshB.isLabelMajor = true)
    (hc : (scanLabels env s.visitedCountries s.countryMeshes).1 =
        [labelInfoOf env s.visitedCountries A meshA, labelInfoOf env s.visitedCountries B meshB] ∨
      (scanLabels env s.visitedCountries s.countryMeshes).1 =
        [labelInfoOf env s.visitedCountries B meshB, labelInfoOf env s.visitedCountries A meshA])
    (hov : overlaps (placementRect env A) (placementRect env B) = true) :
    (updateLabelVisibility env s).visibleLabels = [A] ∧
      ∀ (i : ℕ) (k : String) (m : Mesh) (el : Element),
        s.countryMeshes[i]? = some (k, m) → m.label = some el →
        (k = A → (updateLabelVisibility env s).countryMeshes[i]? =
          some (k, { m with label := some { el with
            opacity := "1", zIndex := some (1000 - round (env.distanceToCamera A)) } })) ∧
        (k = B → (updateLabelVisibility env s).countryMeshes[i]? =
          some (k, { m with label := some { el with opacity := "0" } })) := by
  have hmemA : labelInfoOf env s.visitedCountries A meshA ∈
      (scanLabels env s.visitedCountries s.countryMeshes).1 := by
    rcases hc with h | h <;> rw [h] <;> simp
  have hmemB : labelInfoOf env s.visitedCountries B meshB ∈
      (scanLabels env s.visitedCountries s.countryMeshes).1 := by
    rcases hc with h | h <;> rw [h] <;> simp
  obtain ⟨_, _, _, hdA, hbA, _⟩ := mem_scanLabels env _ _ _ hmemA
  obtain ⟨_, _, _, hdB, hbB, _⟩ := mem_scanLabels env _ _ _ hmemB
  have hdA' : env.dot A > 0 := hdA
  have hdB' : env.dot B > 0 := hdB
  obtain ⟨hab, hba⟩ := compare_visited_major env s.visitedCountries A B meshA meshB hs0 hs1
    hA hAm hB hBm hbA
  have hne : A ≠ B := fun h => hB (h ▸ hA)
  have hsorted : potentialVisibleLabels env s =
      [labelInfoOf env s.visitedCountries A meshA, labelInfoOf env s.visitedCountries B meshB] := by
    unfold potentialVisibleLabels
    rcases hc with h | h <;> rw [h]
    · exact (sort_pair _ _ _ hab hba).1
    · exact (sort_pair _ _ _ hab hba).2
  have hboxA : boxOf env (labelInfoOf env s.visitedCountries A meshA) = placementRect env A :=
    boxOf_eq_placementRect env _ ⟨rfl, rfl⟩
  have hboxB : boxOf env (labelInfoOf env s.visitedCountries B meshB) = placementRect env B :=
    boxOf_eq_placementRect env _ ⟨rfl, rfl⟩
  have hw : passWrites env s =
      [(A, some (1000 - round (env.distanceToCamera A))), (B, none)] := by
    unfold passWrites
    rw [hsorted]
    simp only [styleTrace, List.length_cons, List.length_nil]
    have hv1 : verdict env (min 15 (0 + 1 + 1))
        { labelBoxes := [], labelCount := 0, visibleLabels := [],
          countryMeshes := (scanLabels env s.visitedCountries s.countryMeshes).2 }
        (labelInfoOf env s.visitedCountries A meshA) =
        some (1000 - round (env.distanceToCamera A)) := by
      simp [verdict, labelInfoOf]
    rw [placeLabel_eq, hv1]
    simp only
    have hv2 : verdict env (min 15 (0 + 1 + 1))
        { labelBoxes := [] ++ [boxOf env (labelInfoOf env s.visitedCountries A meshA)],
          labelCount := 0 + 1,
          visibleLabels := [] ++ [(labelInfoOf env s.visitedCountries A meshA).countryName],
          countryMeshes := setStyle (labelInfoOf env s.visitedCountries A meshA).countryName
            (writeStyle (some (1000 - round (env.distanceToCamera A))))
            (scanLabels env s.visitedCountries s.countryMeshes).2 }
        (labelInfoOf env s.visitedCountries B meshB) = none := by
      simp only [verdict, hboxA, hboxB]
      rw [overlaps_comm] at hov
      simp [hov]
    rw [hv2]
    rfl
  constructor
  · rw [updateLabelVisibility_visibleLabels env s hg, hw]
    simp [List.filter_cons]
  · intro i k m el hi hl
    rw [updateLabelVisibility_countryMeshes env s hg, List.getElem?_map, hi, Option.map_some', hw]
    constructor
    · intro hk
      subst hk
      rw [hideFar_of_near env (k, m) hdA']
      simp [entryNet, hl, netStyle_cons, netStyle_nil, writeStyle, hne.symm]
    · intro hk
      subst hk
      rw [hideFar_of_near env (k, m) hdB']
      simp [entryNet, hl, netStyle_cons, netStyle_nil, writeStyle, hne]

/-! ## Candidates with disjoint rectangles -/

theorem foldl_placeLabel_disjoint (env : Env) (maxLabels : ℕ) (l : List LabelInfo)
    (p : Placement)
    (hp : ∀ info ∈ l, ∀ b ∈ p.labelBoxes, overlaps (boxOf env info) b = false)
    (hl : l.Pairwise (fun a b => overlaps (boxOf env b) (boxOf env a) = false)) :
    (l.foldl (placeLabel env maxLabels) p).visibleLabels =
      p.visibleLabels ++ (l.take (maxLabels - p.labelCount)).map LabelInfo.countryName := by
  induction l generalizing p with
  | nil => simp
  | cons x xs ih =>
    rw [List.pairwise_cons] at hl
    rw [List.foldl_cons, placeLabel_eq]
    by_cases hc : p.labelCount ≥ maxLabels
    · have hv : verdict env maxLabels p x = none := by simp [verdict, hc]
      rw [hv]
      refine (ih ⟨p.labelBoxes, p.labelCount, p.visibleLabels,
        setStyle x.countryName (writeStyle none) p.countryMeshes⟩
        (fun info hi b hb => hp info (List.mem_cons_of_mem _ hi) b hb) hl.2).trans ?_
      simp [Nat.sub_eq_zero_of_le hc]
    · have ha : p.labelBoxes.any (fun existingBox => overlaps (boxOf env x) existingBox) =
          false := by
        rw [List.any_eq_false]
        intro b hb
        simp [hp x (List.mem_cons_self _ _) b hb]
      have hv : verdict env maxLabels p x = some (1000 - round x.depth) := by
        simp [verdict, hc, ha]
      rw [hv]
      refine (ih ⟨p.labelBoxes ++ [boxOf env x], p.labelCount + 1,
        p.visibleLabels ++ [x.countryName],
        setStyle x.countryName (writeStyle (some (1000 - round x.depth))) p.countryMeshes⟩
        ?_ hl.2).trans ?_
      · intro info hi b hb
        rw [List.mem_append, List.mem_singleton] at hb
        rcases hb with hb | hb
        · exact hp info (List.mem_cons_of_mem _ hi) b hb
        · rw [hb]
          exact hl.1 info hi
      · have hk : maxLabels - p.labelCount = (maxLabels - (p.labelCount + 1)) + 1 := by omega
        rw [hk, List.take_succ_cons]
        simp

/-- C6 (amended): when the placement rectangles of the candidates are mutually
non-overlapping, one pass shows exactly the first 15 candidates of the sorted
order that it walks (all of them when there are at most 15): with `n > 15`
candidates exactly 15 are shown and the `n - 15` hidden ones are the last in
that order. -/
theorem disjoint_candidates_first_15 (env : Env) (s : State) (hg : s.globe = true)
    (hno : ((scanLabels env s.visitedCountries s.countryMeshes).1.map
      LabelInfo.countryName).Pairwise
        (fun a b => overlaps (placementRect env a) (placementRect env b) = false)) :
    (updateLabelVisibility env s).visibleLabels =
        ((potentialVisibleLabels env s).take 15).map LabelInfo.countryName ∧
      (updateLabelVisibility env s).visibleLabels.length =
        min 15 (scanLabels env s.visitedCountries s.countryMeshes).1.length := by
  have hsym : ∀ {a b : LabelInfo},
      overlaps (placementRect env a.countryName) (placementRect env b.countryName) = false →
      overlaps (placementRect env b.countryName) (placementRect env a.countryName) = false := by
    intro a b h
    rw [overlaps_comm]
    exact h
  rw [List.pairwise_map] at hno
  have hsorted : (potentialVisibleLabels env s).Pairwise (fun a b =>
      overlaps (placementRect env a.countryName) (placementRect env b.countryName) = false) :=
    ((sort_perm compareLabels _).pairwise_iff hsym).2 hno
  have hbox : (potentialVisibleLabels env s).Pairwise (fun a b =>
      overlaps (boxOf env b) (boxOf env a) = false) := by
    refine hsorted.imp_of_mem ?_
    intro a b ha hb hab
    rw [boxOf_eq_placementRect env a
        (wellPlaced_of_mem_scanLabels env _ _ a ((mem_sort _ _ _).1 ha)),
      boxOf_eq_placementRect env b
        (wellPlaced_of_mem_scanLabels env _ _ b ((mem_sort _ _ _).1 hb)), overlaps_comm]
    exact hab
  have hvis : (updateLabelVisibility env s).visibleLabels =
      ((potentialVisibleLabels env s).take 15).map LabelInfo.countryName := by
    simp only [updateLabelVisibility, hg, Bool.not_true, Bool.false_eq_true, if_false]
    have := foldl_placeLabel_disjoint env (min 15 (potentialVisibleLabels env s).length)
      (potentialVisibleLabels env s)
      { labelBoxes := [], labelCount := 0, visibleLabels := [],
        countryMeshes := (scanLabels env s.visitedCountries s.countryMeshes).2 }
      (fun _ _ b hb => absurd hb (List.not_mem_nil b)) hbox
    simp only [potentialVisibleLabels] at this ⊢
    rw [this]
    simp only [List.nil_append, Nat.sub_zero]
    congr 1
    rw [← List.take_take, List.take_length]
  refine ⟨hvis, ?_⟩
  rw [hvis, List.length_map, List.length_take]
  unfold potentialVisibleLabels
  rw [length_sort]

/-! ## The theorems at concrete inputs -/

/-- C1 at the example `sDemo`. -/
theorem visibleLabels_length_le_witness :
    sDemo.globe = true ∧
      ((updateLabelVisibility envDemo sDemo).visibleLabels.length ≤ 15 ∧
        (updateLabelVisibility envDemo sDemo).visibleLabels.length ≤
          (scanLabels envDemo sDemo.visitedCountries sDemo.countryMeshes).1.length) :=
  ⟨rfl, visibleLabels_length_le envDemo sDemo rfl⟩

/-- C2 at the example `s16`, where fifteen labels are visible. -/
theorem visibleLabels_pairwise_disjoint_witness :
    s16.globe = true ∧
      (updateLabelVisibility env16 s16).visibleLabels.length = 15 ∧
      (updateLabelVisibility env16 s16).visibleLabels.Pairwise (fun a b =>
        overlaps (placementRect env16 a) (placementRect env16 b) = false ∧
        ∀ px py : ℚ,
          ¬ ((placementRect env16 a).Contains px py ∧ (placementRect env16 b).Contains px py)) :=
  ⟨rfl, by decide!, visibleLabels_pairwise_disjoint env16 s16 rfl⟩

/-- C3 at the example `sDemo`: the far-side label `F`, shown before the pass. -/
theorem far_label_hidden_witness :
    (sDemo.globe = true ∧ sDemo.countryMeshes[2]? = some (labelled "F" true) ∧
      (labelled "F" true).2.label = some (newElement true) ∧ envDemo.dot "F" ≤ 0 ∧
      (newElement true).opacity = "1") ∧
    ((updateLabelVisibility envDemo sDemo).countryMeshes[2]? =
        some ("F", { (labelled "F" true).2 with
          label := some { newElement true with opacity := "0" } }) ∧
      "F" ∉ (updateLabelVisibility envDemo sDemo).visibleLabels) :=
  ⟨⟨rfl, rfl, rfl, by decide!, rfl⟩,
    far_label_hidden envDemo sDemo 2 "F" (labelled "F" true).2 (newElement true) rfl rfl rfl
      (by decide!)⟩

/-- C5 at the example `sDemo`: `A` (visited, not major) and `B` (major) are the
only candidates and their rectangles overlap. -/
theorem visited_beats_major_witness :
    (sDemo.globe = true ∧ "A" ∈ sDemo.visitedCountries ∧
      (labelled "A" false).2.isLabelMajor = false ∧ "B" ∉ sDemo.visitedCountries ∧
      (labelled "B" true).2.isLabelMajor = true ∧
      (scanLabels envDemo sDemo.visitedCountries sDemo.countryMeshes).1 =
        [labelInfoOf envDemo sDemo.visitedCountries "A" (labelled "A" false).2,
          labelInfoOf envDemo sDemo.visitedCountries "B" (labelled "B" true).2] ∧
      overlaps (placementRect envDemo "A") (placementRect envDemo "B") = true) ∧
    (updateLabelVisibility envDemo sDemo).visibleLabels = ["A"] :=
  ⟨⟨rfl, by decide!, rfl, by decide!, rfl, by decide!, by decide!⟩,
    (visited_beats_major envDemo sDemo "A" "B" (labelled "A" false).2 (labelled "B" true).2 rfl
      qsqrt_nonneg qsqrt_le (by decide!) rfl (by decide!) rfl (Or.inl (by decide!))
      (by decide!)).1⟩

/-- C4 at the example `sCycle` (the code breaks the claim): the priority of `A`
exceeds that of `B` by 116, more than 100, yet the sorted order that the greedy
placement walks is `B`, `C`, `A`; `B` is placed first and shown, and `A`, whose
rectangle overlaps that of `B`, is hidden. -/
theorem cycle_places_lower_priority_first :
    (potentialVisibleLabels envCycle sCycle).map (fun i => (i.countryName, i.priority)) =
        [("B", -116), ("C", -50), ("A", 0)] ∧
      (updateLabelVisibility envCycle sCycle).visibleLabels = ["B"] ∧
      (updateLabelVisibility envCycle sCycle).countryMeshes.map
          (fun e => (e.1, e.2.label.map (fun el => el.opacity))) =
        [("B", some "1"), ("C", some "0"), ("A", some "0")] := by
  decide!

/-- C6 as stated fails at the example `s16`: sixteen major labels pass culling,
no two of their placement rectangles overlap and fifteen are shown, but the
hidden one, `L0`, has priority 500, above the priority 400 of the visible
`L13`. -/
theorem hidden_not_lowest_priority :
    (scanLabels env16 s16.visitedCountries s16.countryMeshes).1.length = 16 ∧
      (∀ e ∈ s16.countryMeshes, e.2.isLabelMajor = true) ∧
      ((scanLabels env16 s16.visitedCountries s16.countryMeshes).1.map
        LabelInfo.countryName).Pairwise
          (fun a b => overlaps (placementRect env16 a) (placementRect env16 b) = false) ∧
      (updateLabelVisibility env16 s16).visibleLabels.length = 15 ∧
      "L0" ∉ (updateLabelVisibility env16 s16).visibleLabels ∧
      "L13" ∈ (updateLabelVisibility env16 s16).visibleLabels ∧
      ¬ (priorityOf env16 s16.visitedCountries "L0" (labelled "L0" true).2 ≤
        priorityOf env16 s16.visitedCountries "L13" (labelled "L13" true).2) := by
  decide!

/-- C6 (amended) at the example `s16`. -/
theorem disjoint_candidates_first_15_witness :
    (s16.globe = true ∧
      ((scanLabels env16 s16.visitedCountries s16.countryMeshes).1.map
        LabelInfo.countryName).Pairwise
          (fun a b => overlaps (placementRect env16 a) (placementRect env16 b) = false)) ∧
    ((updateLabelVisibility env16 s16).visibleLabels =
        ((potentialVisibleLabels env16 s16).take 15).map LabelInfo.countryName ∧
      (updateLabelVisibility env16 s16).visibleLabels.length =
        min 15 (scanLabels env16 s16.visitedCountries s16.countryMeshes).1.length) :=
  ⟨⟨rfl, by decide!⟩, disjoint_candidates_first_15 env16 s16 rfl (by decide!)⟩

/-- C8 at the example `sDemo`. -/
theorem save_load_roundtrip_witness :
    sDemo.visitedCountries.Nodup ∧
      ((saveVisitedCountries sDemo).localStorage = some sDemo.visitedCountries ∧
        (reload (saveVisitedCountries sDemo)).visitedCountries = sDemo.visitedCountries ∧
        (reload { sDemo with localStorage := none }).visitedCountries = []) :=
  ⟨by decide, save_load_roundtrip sDemo (by decide)⟩

/-- C9 at the example `sDemo`, toggling the unvisited country `B`. -/
theorem persisted_agrees_with_memory_witness :
    (sDemo.visitedCountries.Nodup ∧
      (toggleVisitedCountry "B" "B" sDemo).visitedCountries = ["A", "B"]) ∧
    (((reload (toggleVisitedCountry "B" "B" sDemo)).visitedCountries =
        (toggleVisitedCountry "B" "B" sDemo).visitedCountries ∧
      ("B" ∈ (toggleVisitedCountry "B" "B" sDemo).visitedCountries ↔
        "B" ∉ sDemo.visitedCountries) ∧
      (∀ x, x ≠ "B" →
        (x ∈ (toggleVisitedCountry "B" "B" sDemo).visitedCountries ↔
          x ∈ sDemo.visitedCountries)) ∧
      (toggleVisitedCountry "B" "B" sDemo).localStorage =
        some (toggleVisitedCountry "B" "B" sDemo).visitedCountries) ∧
    ((reload (resetVisitedCountries sDemo)).visitedCountries =
        (resetVisitedCountries sDemo).visitedCountries ∧
      (resetVisitedCountries sDemo).visitedCountries = [] ∧
      (resetVisitedCountries sDemo).localStorage = none)) :=
  ⟨⟨by decide, by decide⟩, persisted_agrees_with_memory sDemo "B" "B" (by decide)⟩

/-- C10 at the example `sEdge` (the code breaks the claim): the label of Russia
is on the near side with projected x `19 / 20`, outside `[-0.9, 0.9]`, and has
opacity `'1'` before the pass; the pass leaves the state as it was, the label
still has opacity `'1'`. -/
theorem outOfBounds_label_stays_shown :
    envEdge.dot "Russia" > 0 ∧ envEdge.screenPosX "Russia" > 9 / 10 ∧
      sEdge.countryMeshes.map (fun e => (e.1, e.2.label.map (fun el => el.opacity))) =
        [("Russia", some "1")] ∧
      updateLabelVisibility envEdge sEdge = sEdge ∧
      (updateLabelVisibility envEdge sEdge).countryMeshes.map
          (fun e => (e.1, e.2.label.map (fun el => el.opacity))) =
        [("Russia", some "1")] := by
  decide!

/-! ## The comparison function -/

theorem compareLabels_self (a : LabelInfo) : compareLabels a a = 0 := by
  simp [compareLabels]

theorem compareLabels_swap (a b : LabelInfo) : compareLabels b a = -compareLabels a b := by
  unfold compareLabels
  have h : |a.priority - b.priority| = |b.priority - a.priority| := abs_sub_comm _ _
  simp only [h]
  split <;> ring

/-- C11 as stated fails: on the three candidates of the example `sCycle` the
relation is not transitive, `B` sorts before `C` and `C` before `A` (nearer
first, the priorities being within 100), but `B` does not sort before `A` (`A`
sorts before `B`, its priority being higher by 116). -/
theorem sortsBefore_not_transitive :
    SortsBefore (labelInfoOf envCycle [] "B" (labelled "B" false).2)
        (labelInfoOf envCycle [] "C" (labelled "C" false).2) ∧
      SortsBefore (labelInfoOf envCycle [] "C" (labelled "C" false).2)
        (labelInfoOf envCycle [] "A" (labelled "A" false).2) ∧
      ¬ SortsBefore (labelInfoOf envCycle [] "B" (labelled "B" false).2)
        (labelInfoOf envCycle [] "A" (labelled "A" false).2) ∧
      SortsBefore (labelInfoOf envCycle [] "A" (labelled "A" false).2)
        (labelInfoOf envCycle [] "B" (labelled "B" false).2) := by
  decide!

/-- C11 (amended): the relation "`a` sorts before `b`" of the comparison
function is irreflexive and asymmetric for all priorities and depths, and it is
transitive on three candidates whose priorities are pairwise within the tie
band of 100 or pairwise outside it. -/
theorem sortsBefore_irrefl_asymm_trans :
    (∀ a, ¬ SortsBefore a a) ∧
      (∀ a b, SortsBefore a b → ¬ SortsBefore b a) ∧
      (∀ a b c,
        ((InBand a b ∧ InBand b c ∧ InBand a c) ∨ (¬ InBand a b ∧ ¬ InBand b c ∧ ¬ InBand a c)) →
        SortsBefore a b → SortsBefore b c → SortsBefore a c) := by
  refine ⟨?_, ?_, ?_⟩
  · intro a h
    simp [SortsBefore, compareLabels_self] at h
  · intro a b hab hba
    simp only [SortsBefore] at hab hba
    rw [compareLabels_swap] at hba
    linarith
  · intro a b c hband hab hbc
    simp only [SortsBefore, InBand, compareLabels, not_le] at *
    rcases hband with ⟨h1, h2, h3⟩ | ⟨h1, h2, h3⟩
    · rw [if_neg (not_lt.2 h1)] at hab
      rw [if_neg (not_lt.2 h2)] at hbc
      rw [if_neg (not_lt.2 h3)]
      linarith
    · rw [if_pos h1] at hab
      rw [if_pos h2] at hbc
      rw [if_pos h3]
      linarith

/-- C11 (amended) at three candidates of the example `s16` that are within the
tie band. -/
theorem sortsBefore_irrefl_asymm_trans_witness :
    (InBand (labelInfoOf env16 [] "L1" (labelled "L1" true).2)
        (labelInfoOf env16 [] "L13" (labelled "L13" true).2) ∧
      InBand (labelInfoOf env16 [] "L13" (labelled "L13" true).2)
        (labelInfoOf env16 [] "L0" (labelled "L0" true).2) ∧
      InBand (labelInfoOf env16 [] "L1" (labelled "L1" true).2)
        (labelInfoOf env16 [] "L0" (labelled "L0" true).2)) ∧
    SortsBefore (labelInfoOf env16 [] "L1" (labelled "L1" true).2)
      (labelInfoOf env16 [] "L13" (labelled "L13" true).2) ∧
    SortsBefore (labelInfoOf env16 [] "L13" (labelled "L13" true).2)
      (labelInfoOf env16 [] "L0" (labelled "L0" true).2) ∧
    SortsBefore (labelInfoOf env16 [] "L1" (labelled "L1" true).2)
      (labelInfoOf env16 [] "L0" (labelled "L0" true).2) :=
  ⟨by decide!, by decide!, by decide!,
    sortsBefore_irrefl_asymm_trans.2.2 (labelInfoOf env16 [] "L1" (labelled "L1" true).2)
      (labelInfoOf env16 [] "L13" (labelled "L13" true).2)
      (labelInfoOf env16 [] "L0" (labelled "L0" true).2)
      (Or.inl (by decide!)) (by decide!) (by decide!)⟩

/-! ## The greedy walk -/

theorem placementRect_wide (env : Env) (k : String) :
    (placementRect env k).left ≤ (placementRect env k).right ∧
      (placementRect env k).top ≤ (placementRect env k).bottom := by
  have hw : (0 : ℚ) ≤ if env.offsetWidth k = 0 then (100 : ℚ) else (env.offsetWidth k : ℚ) := by
    split
    · norm_num
    · exact Nat.cast_nonneg _
  have hh : (0 : ℚ) ≤ if env.offsetHeight k = 0 then (20 : ℚ) else (env.offsetHeight k : ℚ) := by
    split
    · norm_num
    · exact Nat.cast_nonneg _
  simp only [placementRect]
  constructor <;> linarith

theorem overlaps_iff_common_point (a b : Box) (ha : a.left ≤ a.right ∧ a.top ≤ a.bottom)
    (hb : b.left ≤ b.right ∧ b.top ≤ b.bottom) :
    overlaps a b = true ↔ ∃ px py : ℚ, a.Contains px py ∧ b.Contains px py := by
  constructor
  · intro h
    simp only [overlaps, gt_iff_lt, Bool.not_eq_true', Bool.or_eq_false_iff,
      decide_eq_false_iff_not, not_lt] at h
    obtain ⟨⟨⟨h1, h2⟩, h3⟩, h4⟩ := h
    refine ⟨max a.left b.left, max a.top b.top, ⟨le_max_left _ _, max_le ha.1 h1,
      le_max_left _ _, max_le ha.2 h3⟩, ⟨le_max_right _ _, max_le h2 hb.1,
      le_max_right _ _, max_le h4 hb.2⟩⟩
  · rintro ⟨px, py, h⟩
    cases ho : overlaps a b with
    | true => rfl
    | false => exact absurd h (overlaps_false_disjoint a b ho px py)

theorem greedyAccepted_append (env : Env) (l₁ l₂ : List LabelInfo) :
    greedyAccepted env (l₁ ++ l₂) = l₂.foldl (greedyStep env) (greedyAccepted env l₁) := by
  simp [greedyAccepted, List.foldl_append]

theorem foldl_greedyStep_extends (env : Env) (l acc : List LabelInfo) :
    acc <+: l.foldl (greedyStep env) acc := by
  induction l generalizing acc with
  | nil => exact List.prefix_refl _
  | cons x xs ih =>
    simp only [List.foldl_cons]
    refine List.IsPrefix.trans ?_ (ih _)
    unfold greedyStep
    split
    · exact List.prefix_append _ _
    · exact List.prefix_refl _

theorem foldl_greedyStep_sublist (env : Env) (l acc : List LabelInfo) :
    (l.foldl (greedyStep env) acc).Sublist (acc ++ l) := by
  induction l generalizing acc with
  | nil => simp
  | cons x xs ih =>
    simp only [List.foldl_cons]
    refine (ih _).trans ?_
    unfold greedyStep
    split
    · simp
    · exact List.Sublist.append_left (List.sublist_cons_self x xs) acc

theorem greedyAccepted_sublist (env : Env) (l : List LabelInfo) :
    (greedyAccepted env l).Sublist l := by
  simpa [greedyAccepted] using foldl_greedyStep_sublist env l []

theorem foldl_greedyStep_length (env : Env) (l acc : List LabelInfo) :
    (l.foldl (greedyStep env) acc).length ≤ acc.length + l.length :=
  (foldl_greedyStep_sublist env l acc).length_le.trans (by simp)

theorem any_overlaps_map (env : Env) (r : Box) (acc : List LabelInfo) :
    (acc.map (fun a => placementRect env a.countryName)).any
        (fun existingBox => overlaps r existingBox) =
      !acc.all (fun a => !overlaps r (placementRect env a.countryName)) := by
  induction acc with
  | nil => rfl
  | cons x xs ih => simp [List.any_cons, List.all_cons, ih]

/-- One step of the code follows one step of the rule in words. -/
theorem placeLabel_simulates (env : Env) (n : ℕ) (p : Placement) (acc : List LabelInfo)
    (c : LabelInfo) (hs : Simulates env p acc) (hw : WellPlaced env c) (hn : acc.length < n) :
    verdict env (min 15 n) p c =
        (if accepts env acc c then some (1000 - round c.depth) else none) ∧
      Simulates env (placeLabel env (min 15 n) p c) (greedyStep env acc c) := by
  obtain ⟨h1, h2, h3⟩ := hs
  have hv : verdict env (min 15 n) p c =
      (if accepts env acc c then some (1000 - round c.depth) else none) := by
    unfold verdict accepts
    rw [h1, h2, boxOf_eq_placementRect env c hw, any_overlaps_map]
    by_cases hc : acc.length < 15
    · have hc' : ¬ acc.length ≥ min 15 n := by
        simp only [ge_iff_le, not_le]
        exact lt_min hc hn
      rw [if_neg hc']
      cases acc.all (fun a => !overlaps (placementRect env c.countryName)
          (placementRect env a.countryName)) <;> simp [hc]
    · have hc' : acc.length ≥ min 15 n := by
        simp only [ge_iff_le]
        exact (min_le_left _ _).trans (not_lt.1 hc)
      simp [hc', hc]
  refine ⟨hv, ?_⟩
  rw [placeLabel_eq, hv]
  unfold greedyStep
  cases ha : accepts env acc c with
  | true =>
    simp only [if_true]
    exact ⟨by simp [h1, boxOf_eq_placementRect env c hw], by simp [h2], by simp [h3]⟩
  | false =>
    simp only [Bool.false_eq_true, if_false]
    exact ⟨h1, h2, h3⟩

theorem foldl_placeLabel_simulates (env : Env) (n : ℕ) (l : List LabelInfo) (p : Placement)
    (acc : List LabelInfo) (hs : Simulates env p acc) (hw : ∀ c ∈ l, WellPlaced env c)
    (hn : acc.length + l.length ≤ n) :
    Simulates env (l.foldl (placeLabel env (min 15 n)) p) (l.foldl (greedyStep env) acc) := by
  induction l generalizing p acc with
  | nil => exact hs
  | cons x xs ih =>
    simp only [List.foldl_cons]
    have hx : acc.length < n := by
      simp only [List.length_cons] at hn
      omega
    refine ih _ _ (placeLabel_simulates env n p acc x hs (hw x (List.mem_cons_self _ _)) hx).2
      (fun c hc => hw c (List.mem_cons_of_mem _ hc)) ?_
    have := foldl_greedyStep_length env [x] acc
    simp only [List.foldl_cons, List.foldl_nil, List.length_cons, List.length_nil] at this hn
    omega

theorem styleTrace_append (env : Env) (maxLabels : ℕ) (l₁ l₂ : List LabelInfo) (p : Placement) :
    styleTrace env maxLabels p (l₁ ++ l₂) =
      styleTrace env maxLabels p l₁ ++
        styleTrace env maxLabels (l₁.foldl (placeLabel env maxLabels) p) l₂ := by
  induction l₁ generalizing p with
  | nil => rfl
  | cons x xs ih => simp [styleTrace, ih]

theorem simulates_init (env : Env) (ms : List (String × Mesh)) :
    Simulates env
      { labelBoxes := [], labelCount := 0, visibleLabels := [], countryMeshes := ms } [] :=
  ⟨rfl, rfl, rfl⟩

theorem wellPlaced_of_mem_potential (env : Env) (s : State) (c : LabelInfo)
    (h : c ∈ potentialVisibleLabels env s) : WellPlaced env c :=
  wellPlaced_of_mem_scanLabels env _ _ c ((mem_sort _ _ _).1 h)

/-- The names in `visibleLabels` are those of the candidates accepted by the rule
in words. -/
theorem visibleLabels_eq_greedyAccepted (env : Env) (s : State) (hg : s.globe = true) :
    (updateLabelVisibility env s).visibleLabels =
      (greedyAccepted env (potentialVisibleLabels env s)).map LabelInfo.countryName := by
  have h := foldl_placeLabel_simulates env (potentialVisibleLabels env s).length
    (potentialVisibleLabels env s) _ []
    (simulates_init env (scanLabels env s.visitedCountries s.countryMeshes).2)
    (fun c hc => wellPlaced_of_mem_potential env s c hc) (by simp)
  simp only [updateLabelVisibility, hg, Bool.not_true, Bool.false_eq_true, if_false]
  exact h.2.2

/-- The style write of the pass for the candidate after the prefix `pre`. -/
theorem passWrites_split (env : Env) (s : State) (pre post : List LabelInfo) (c : LabelInfo)
    (h : potentialVisibleLabels env s = pre ++ c :: post) :
    ∃ w₁ w₂, passWrites env s = w₁ ++
        (c.countryName,
          if accepts env (greedyAccepted env pre) c then some (1000 - round c.depth) else none)
          :: w₂ ∧
      w₁.map Prod.fst = pre.map LabelInfo.countryName ∧
      w₂.map Prod.fst = post.map LabelInfo.countryName := by
  have hw : ∀ x ∈ pre, WellPlaced env x := fun x hx =>
    wellPlaced_of_mem_potential env s x (by rw [h]; simp [hx])
  have hc : WellPlaced env c := wellPlaced_of_mem_potential env s c (by rw [h]; simp)
  have hlen : (greedyAccepted env pre).length < (potentialVisibleLabels env s).length := by
    have := (greedyAccepted_sublist env pre).length_le
    rw [h]
    simp only [List.length_append, List.length_cons]
    omega
  have hsim := foldl_placeLabel_simulates env (potentialVisibleLabels env s).length pre
    { labelBoxes := [], labelCount := 0, visibleLabels := [],
      countryMeshes := (scanLabels env s.visitedCountries s.countryMeshes).2 } []
    (simulates_init env _) hw (by rw [h]; simp)
  have hv := (placeLabel_simulates env (potentialVisibleLabels env s).length _
    (greedyAccepted env pre) c hsim hc hlen).1
  refine ⟨styleTrace env (min 15 (potentialVisibleLabels env s).length)
      { labelBoxes := [], labelCount := 0, visibleLabels := [],
        countryMeshes := (scanLabels env s.visitedCountries s.countryMeshes).2 } pre,
    styleTrace env (min 15 (potentialVisibleLabels env s).length)
      (placeLabel env (min 15 (potentialVisibleLabels env s).length)
        (pre.foldl (placeLabel env (min 15 (potentialVisibleLabels env s).length))
          { labelBoxes := [], labelCount := 0, visibleLabels := [],
            countryMeshes := (scanLabels env s.visitedCountries s.countryMeshes).2 }) c) post,
    ?_, styleTrace_names _ _ _ _, styleTrace_names _ _ _ _⟩
  rw [← hv]
  unfold passWrites
  generalize min 15 (potentialVisibleLabels env s).length = M
  rw [h, styleTrace_append]
  rfl

theorem scanLabels_names_sublist (env : Env) (v : List String) (ms : List (String × Mesh)) :
    ((scanLabels env v ms).1.map LabelInfo.countryName).Sublist (ms.map Prod.fst) := by
  induction ms with
  | nil => simp [scanLabels]
  | cons e rest ih =>
    obtain ⟨k, m⟩ := e
    simp only [scanLabels, List.map_cons]
    cases hl : m.label with
    | none => exact ih.cons _
    | some el =>
      by_cases hd : env.dot k > 0
      · by_cases hb : inViewBounds env k = true
        · simp only [hd, hb, if_true, List.map_cons, labelInfoOf]
          exact ih.cons₂ _
        · simp only [hd, hb, if_true]
          exact ih.cons _
      · simp only [hd, if_false]
        exact ih.cons _

theorem potential_names_nodup (env : Env) (s : State)
    (hk : (s.countryMeshes.map Prod.fst).Nodup) :
    ((potentialVisibleLabels env s).map LabelInfo.countryName).Nodup := by
  have h1 : ((scanLabels env s.visitedCountries s.countryMeshes).1.map
      LabelInfo.countryName).Nodup := hk.sublist (scanLabels_names_sublist env _ _)
  exact ((sort_perm compareLabels _).map _).nodup_iff.2 h1

theorem netStyle_unique (w₁ w₂ : List (String × Option ℤ)) (k : String) (v : Option ℤ)
    (el : Element) (h₁ : k ∉ w₁.map Prod.fst) (h₂ : k ∉ w₂.map Prod.fst) :
    netStyle (w₁ ++ (k, v) :: w₂) k el = writeStyle v el := by
  rw [netStyle_append, netStyle_of_not_mem w₁ k el h₁, netStyle_cons, if_pos rfl,
    netStyle_of_not_mem w₂ k _ h₂]

/-- The entry of a candidate after the pass: its label element carries the style
write that the rule in words decides, nothing else changes. -/
theorem candidate_entry_after_pass (env : Env) (s : State) (hg : s.globe = true)
    (hk : (s.countryMeshes.map Prod.fst).Nodup) (pre post : List LabelInfo) (c : LabelInfo)
    (h : potentialVisibleLabels env s = pre ++ c :: post) (i : ℕ) (m : Mesh) (el : Element)
    (hi : s.countryMeshes[i]? = some (c.countryName, m)) (hl : m.label = some el) :
    (updateLabelVisibility env s).countryMeshes[i]? =
      some (c.countryName, { m with label := some (writeStyle
        (if accepts env (greedyAccepted env pre) c then some (1000 - round c.depth) else none)
        el) }) := by
  obtain ⟨w₁, w₂, hw, hn₁, hn₂⟩ := passWrites_split env s pre post c h
  have hnd := potential_names_nodup env s hk
  rw [h, List.map_append, List.map_cons, List.nodup_append] at hnd
  obtain ⟨_, hnd₂, hdisj⟩ := hnd
  rw [List.nodup_cons] at hnd₂
  have hc₁ : c.countryName ∉ w₁.map Prod.fst := by
    rw [hn₁]
    intro hm
    exact hdisj hm (List.mem_cons_self _ _)
  have hc₂ : c.countryName ∉ w₂.map Prod.fst := by
    rw [hn₂]
    exact hnd₂.1
  have hdot : env.dot c.countryName > 0 := by
    apply (passWrites_candidate env s c.countryName _).1
    rw [hw]
    simp
  rw [updateLabelVisibility_countryMeshes env s hg, List.getElem?_map, hi, Option.map_some',
    hideFar_of_near env (c.countryName, m) hdot, hw]
  simp only [entryNet, hl, Option.map_some', netStyle_unique w₁ w₂ _ _ el hc₁ hc₂]

theorem mem_greedyAccepted_append_left (env : Env) (pre rest : List LabelInfo) (a : LabelInfo)
    (h : a ∈ greedyAccepted env pre) : a ∈ greedyAccepted env (pre ++ rest) := by
  rw [greedyAccepted_append]
  exact (foldl_greedyStep_extends env rest _).subset h

/-- Among the candidates before a split, the accepted ones are the visible
ones. -/
theorem mem_greedyAccepted_iff_visible (env : Env) (s : State) (hg : s.globe = true)
    (hk : (s.countryMeshes.map Prod.fst).Nodup) (pre rest : List LabelInfo)
    (h : potentialVisibleLabels env s = pre ++ rest) (a : LabelInfo) (ha : a ∈ pre) :
    a ∈ greedyAccepted env pre ↔
      a.countryName ∈ (updateLabelVisibility env s).visibleLabels := by
  rw [visibleLabels_eq_greedyAccepted env s hg, h]
  have hnd := potential_names_nodup env s hk
  rw [h] at hnd
  constructor
  · intro hm
    exact List.mem_map_of_mem _ (mem_greedyAccepted_append_left env pre rest a hm)
  · intro hm
    rw [List.mem_map] at hm
    obtain ⟨a', ha', hn⟩ := hm
    have ha'mem : a' ∈ pre ++ rest := (greedyAccepted_sublist env _).subset ha'
    have hamem : a ∈ pre ++ rest := List.mem_append_left _ ha
    have heq : a' = a := List.inj_on_of_nodup_map hnd ha'mem hamem hn
    subst heq
    rw [greedyAccepted_append] at ha'
    have hsub := (foldl_greedyStep_sublist env rest (greedyAccepted env pre)).subset ha'
    rw [List.mem_append] at hsub
    rcases hsub with hsub | hsub
    · exact hsub
    · exfalso
      rw [List.map_append, List.nodup_append] at hnd
      exact hnd.2.2 (List.mem_map_of_mem _ ha) (List.mem_map_of_mem _ hsub)

theorem sublist_eq_filter_mem {α : Type} [DecidableEq α] (l' l : List α) (hs : l'.Sublist l)
    (hn : l.Nodup) : l.filter (fun x => decide (x ∈ l')) = l' := by
  induction hs with
  | slnil => rfl
  | @cons l₁ l₂ a hs ih =>
    rw [List.nodup_cons] at hn
    have ha : a ∉ l₁ := fun h => hn.1 (hs.subset h)
    rw [List.filter_cons_of_neg (by simpa using ha)]
    exact ih hn.2
  | @cons₂ l₁ l₂ a hs ih =>
    rw [List.nodup_cons] at hn
    rw [List.filter_cons_of_pos (by simp)]
    congr 1
    refine Eq.trans ?_ (ih hn.2)
    apply List.filter_congr
    intro x hx
    have hxa : x ≠ a := fun h => hn.1 (h ▸ hx)
    simp [hxa]

/-- The candidates accepted before a split are the visible ones among those
before it. -/
theorem greedyAccepted_eq_filter_visible (env : Env) (s : State) (hg : s.globe = true)
    (hk : (s.countryMeshes.map Prod.fst).Nodup) (pre rest : List LabelInfo)
    (h : potentialVisibleLabels env s = pre ++ rest) :
    greedyAccepted env pre =
      pre.filter (fun a =>
        decide (a.countryName ∈ (updateLabelVisibility env s).visibleLabels)) := by
  have hnd := potential_names_nodup env s hk
  rw [h, List.map_append] at hnd
  have hpre : pre.Nodup := (List.nodup_append.1 hnd).1.of_map _
  rw [← sublist_eq_filter_mem _ pre (greedyAccepted_sublist env pre) hpre]
  apply List.filter_congr
  intro a ha
  simp only [decide_eq_decide]
  exact mem_greedyAccepted_iff_visible env s hg hk pre rest h a ha

theorem mem_visible_of_accepts (env : Env) (s : State) (hg : s.globe = true)
    (pre post : List LabelInfo) (c : LabelInfo)
    (h : potentialVisibleLabels env s = pre ++ c :: post)
    (ha : accepts env (greedyAccepted env pre) c = true) :
    c.countryName ∈ (updateLabelVisibility env s).visibleLabels := by
  rw [visibleLabels_eq_greedyAccepted env s hg, h]
  apply List.mem_map_of_mem
  have h1 : c ∈ greedyAccepted env (pre ++ [c]) := by
    rw [greedyAccepted_append]
    simp [greedyStep, ha]
  have h2 := mem_greedyAccepted_append_left env (pre ++ [c]) post c h1
  simpa using h2

theorem accepts_iff (env : Env) (acc : List LabelInfo) (c : LabelInfo) :
    accepts env acc c = true ↔
      acc.length < 15 ∧ ∀ a ∈ acc,
        overlaps (placementRect env c.countryName) (placementRect env a.countryName) = false := by
  simp [accepts, List.all_eq_true]

theorem visible_iff_accepts (env : Env) (s : State) (hg : s.globe = true)
    (hk : (s.countryMeshes.map Prod.fst).Nodup) (pre post : List LabelInfo) (c : LabelInfo)
    (h : potentialVisibleLabels env s = pre ++ c :: post) :
    c.countryName ∈ (updateLabelVisibility env s).visibleLabels ↔
      accepts env (greedyAccepted env pre) c = true := by
  refine ⟨?_, mem_visible_of_accepts env s hg pre post c h⟩
  intro hv
  have h' : potentialVisibleLabels env s = (pre ++ [c]) ++ post := by simp [h]
  have hm := (mem_greedyAccepted_iff_visible env s hg hk (pre ++ [c]) post h' c (by simp)).2 hv
  rw [greedyAccepted_append] at hm
  simp only [List.foldl_cons, List.foldl_nil, greedyStep] at hm
  cases ha : accepts env (greedyAccepted env pre) c with
  | true => rfl
  | false =>
    exfalso
    rw [ha] at hm
    simp only [Bool.false_eq_true, if_false] at hm
    have hpre : c ∈ pre := (greedyAccepted_sublist env pre).subset hm
    have hnd := potential_names_nodup env s hk
    rw [h, List.map_append, List.map_cons, List.nodup_append] at hnd
    exact hnd.2.2 (List.mem_map_of_mem _ hpre) (List.mem_cons_self _ _)

/-- C12: greedy placement. For a candidate `c` of the sorted list, preceded by
`pre`: `c` is marked visible if and only if fewer than 15 of the candidates
before it were marked visible and its rectangle intersects the rectangle of none
of them; its label element gets opacity `'1'` (and its z-index) in that case and
opacity `'0'` otherwise, so with 15 accepted every later candidate is hidden.
Two rectangles intersect when they share a point, a point of an edge
included. The keys of `countryMeshes` are distinct. -/
theorem greedy_placement (env : Env) (s : State) (pre post : List LabelInfo) (c : LabelInfo)
    (hg : s.globe = true) (hk : (s.countryMeshes.map Prod.fst).Nodup)
    (h : potentialVisibleLabels env s = pre ++ c :: post) :
    (c.countryName ∈ (updateLabelVisibility env s).visibleLabels ↔
        (pre.filter (fun a =>
          decide (a.countryName ∈ (updateLabelVisibility env s).visibleLabels))).length < 15 ∧
        ∀ a ∈ pre, a.countryName ∈ (updateLabelVisibility env s).visibleLabels →
          overlaps (placementRect env c.countryName) (placementRect env a.countryName) = false) ∧
      (∀ (i : ℕ) (m : Mesh) (el : Element),
        s.countryMeshes[i]? = some (c.countryName, m) → m.label = some el →
        (updateLabelVisibility env s).countryMeshes[i]? =
          some (c.countryName,
            { m with
              label := some (if c.countryName ∈ (updateLabelVisibility env s).visibleLabels then
                  { el with opacity := "1", zIndex := some (1000 - round c.depth) }
                else { el with opacity := "0" }) })) ∧
      (∀ a b : String,
        overlaps (placementRect env a) (placementRect env b) = true ↔
          ∃ px py : ℚ, (placementRect env a).Contains px py ∧
            (placementRect env b).Contains px py) := by
  have h' : potentialVisibleLabels env s = pre ++ (c :: post) := h
  have hfil := greedyAccepted_eq_filter_visible env s hg hk pre (c :: post) h'
  have hiff := visible_iff_accepts env s hg hk pre post c h
  refine ⟨?_, ?_, ?_⟩
  · rw [hiff, accepts_iff, ← hfil]
    constructor
    · rintro ⟨h1, h2⟩
      refine ⟨h1, fun a ha hv => h2 a ?_⟩
      exact (mem_greedyAccepted_iff_visible env s hg hk pre (c :: post) h' a ha).2 hv
    · rintro ⟨h1, h2⟩
      refine ⟨h1, fun a ha => ?_⟩
      have hap : a ∈ pre := (greedyAccepted_sublist env pre).subset ha
      exact h2 a hap
        ((mem_greedyAccepted_iff_visible env s hg hk pre (c :: post) h' a hap).1 ha)
  · intro i m el hi hl
    rw [candidate_entry_after_pass env s hg hk pre post c h i m el hi hl]
    by_cases hv : c.countryName ∈ (updateLabelVisibility env s).visibleLabels
    · rw [if_pos hv, if_pos (hiff.1 hv)]
      rfl
    · have hna : ¬ accepts env (greedyAccepted env pre) c = true := fun ha => hv (hiff.2 ha)
      rw [if_neg hv, if_neg hna]
      rfl
  · intro a b
    exact overlaps_iff_common_point _ _ (placementRect_wide env a) (placementRect_wide env b)

/-- C15: maximality of the shown set. When fewer than 15 labels are marked
visible, every candidate that is not visible has a rectangle that intersects the
rectangle of a visible candidate before it in the sorted order; and the first
candidate of the sorted order is always visible. -/
theorem hidden_candidate_blocked (env : Env) (s : State) (hg : s.globe = true) :
    ((updateLabelVisibility env s).visibleLabels.length < 15 →
      ∀ (pre post : List LabelInfo) (c : LabelInfo),
        potentialVisibleLabels env s = pre ++ c :: post →
        c.countryName ∉ (updateLabelVisibility env s).visibleLabels →
        ∃ a ∈ pre, a.countryName ∈ (updateLabelVisibility env s).visibleLabels ∧
          overlaps (placementRect env c.countryName) (placementRect env a.countryName) = true) ∧
      (∀ (c : LabelInfo) (rest : List LabelInfo),
        potentialVisibleLabels env s = c :: rest →
        c.countryName ∈ (updateLabelVisibility env s).visibleLabels) := by
  constructor
  · intro hlt pre post c h hc
    have hna : ¬ accepts env (greedyAccepted env pre) c = true :=
      fun ha => hc (mem_visible_of_accepts env s hg pre post c h ha)
    have hlen : (greedyAccepted env pre).length < 15 := by
      have hp : greedyAccepted env pre <+: greedyAccepted env (potentialVisibleLabels env s) := by
        rw [h, greedyAccepted_append]
        exact foldl_greedyStep_extends env _ _
      have := hp.length_le
      rw [visibleLabels_eq_greedyAccepted env s hg, List.length_map] at hlt
      omega
    rw [accepts_iff] at hna
    simp only [not_and, not_forall] at hna
    obtain ⟨a, ha, hov⟩ := hna hlen
    refine ⟨a, (greedyAccepted_sublist env pre).subset ha, ?_, ?_⟩
    · rw [visibleLabels_eq_greedyAccepted env s hg, h]
      exact List.mem_map_of_mem _ (mem_greedyAccepted_append_left env pre (c :: post) a ha)
    · simpa using hov
  · intro c rest h
    exact mem_visible_of_accepts env s hg [] rest c h (by simp [accepts, greedyAccepted])

theorem round_mono (x y : ℚ) (h : x ≤ y) : round x ≤ round y := by
  unfold round
  exact Int.floor_le_floor (by linarith)

theorem round_add_one_le (x y : ℚ) (h : x + 1 ≤ y) : round x + 1 ≤ round y := by
  unfold round
  rw [← Int.floor_add_one]
  exact Int.floor_le_floor (by linarith)

/-- The entry of a visible label after the pass: opacity `'1'` and the z-index
of line 558. -/
theorem visible_entry_after_pass (env : Env) (s : State) (hg : s.globe = true)
    (hk : (s.countryMeshes.map Prod.fst).Nodup) (a : String)
    (ha : a ∈ (updateLabelVisibility env s).visibleLabels) (i : ℕ) (m : Mesh) (el : Element)
    (hi : s.countryMeshes[i]? = some (a, m)) (hl : m.label = some el) :
    (updateLabelVisibility env s).countryMeshes[i]? =
      some (a,
        { m with label := some { el with opacity := "1", zIndex := some (zIndexOf env a) } }) := by
  have ha' := ha
  rw [visibleLabels_eq_greedyAccepted env s hg, List.mem_map] at ha'
  obtain ⟨c, hc, rfl⟩ := ha'
  have hcs : c ∈ potentialVisibleLabels env s := (greedyAccepted_sublist env _).subset hc
  obtain ⟨pre, post, hsplit⟩ := List.append_of_mem hcs
  obtain ⟨_, _, _, _, _, heq⟩ := mem_scanLabels env _ _ c ((mem_sort _ _ _).1 hcs)
  have hdepth : c.depth = env.distanceToCamera c.countryName := by
    rw [heq]
    rfl
  rw [candidate_entry_after_pass env s hg hk pre post c hsplit i m el hi hl,
    if_pos ((visible_iff_accepts env s hg hk pre post c hsplit).1 ha), hdepth]
  rfl

/-- C13 (amended): of two labels marked visible in the same pass, the nearer one
never gets the lower stacking index, and it gets the strictly higher one when
the other is farther by at least 1; each gets opacity `'1'` and the z-index
`1000 - round(depth)`. The keys of `countryMeshes` are distinct. -/
theorem nearer_label_not_below (env : Env) (s : State) (a b : String) (hg : s.globe = true)
    (hk : (s.countryMeshes.map Prod.fst).Nodup)
    (ha : a ∈ (updateLabelVisibility env s).visibleLabels)
    (hb : b ∈ (updateLabelVisibility env s).visibleLabels)
    (hd : env.distanceToCamera a < env.distanceToCamera b) :
    (∀ (k : String), k = a ∨ k = b → ∀ (i : ℕ) (m : Mesh) (el : Element),
        s.countryMeshes[i]? = some (k, m) → m.label = some el →
        (updateLabelVisibility env s).countryMeshes[i]? =
          some (k,
            { m with
              label := some { el with opacity := "1", zIndex := some (zIndexOf env k) } })) ∧
      zIndexOf env a ≥ zIndexOf env b ∧
      (env.distanceToCamera a + 1 ≤ env.distanceToCamera b →
        zIndexOf env a > zIndexOf env b) := by
  refine ⟨?_, ?_, ?_⟩
  · intro k hkab i m el hi hl
    rcases hkab with rfl | rfl
    · exact visible_entry_after_pass env s hg hk _ ha i m el hi hl
    · exact visible_entry_after_pass env s hg hk _ hb i m el hi hl
  · have := round_mono _ _ hd.le
    unfold zIndexOf
    omega
  · intro h1
    have := round_add_one_le _ _ h1
    unfold zIndexOf
    omega

/-! ## The major flag -/

theorem getElem?_updateMesh (key : String) (f : Mesh → Mesh) (ms : List (String × Mesh))
    (i : ℕ) (e : String × Mesh) (hi : ms[i]? = some e) :
    (updateMesh key f ms)[i]? = some (if e.1 = key then (e.1, f e.2) else e) := by
  simp [updateMesh, List.getElem?_map, hi]

theorem toggleVisitedCountry_countryMeshes (countryName meshKey : String) (s : State) :
    (toggleVisitedCountry countryName meshKey s).countryMeshes =
      if countryName ∈ s.visitedCountries then
        updateMesh meshKey (unmarkMesh countryName) s.countryMeshes
      else updateMesh meshKey markMesh s.countryMeshes := by
  unfold toggleVisitedCountry saveVisitedCountries
  split <;> rfl

/-- C14 as stated fails at the example `sAtlas`: marking Luxembourg, a minor
country, as visited changes the major flag of its label from `false` to
`true`. -/
theorem toggle_changes_major_flag :
    sAtlas.countryMeshes.map (fun e => (e.1, e.2.isLabelMajor)) =
        [("Russia", true), ("Greenland", true), ("Luxembourg", false)] ∧
      (toggleVisitedCountry "Luxembourg" "Luxembourg" sAtlas).countryMeshes.map
          (fun e => (e.1, e.2.isLabelMajor)) =
        [("Russia", true), ("Greenland", true), ("Luxembourg", true)] := by
  decide!

/-- C14 (amended): the major flag is not static. `toggleVisitedCountry` leaves
every mesh other than the toggled one as it is; marking a country as visited
sets the flag of its label to `true`; unmarking a country of the list
`majorCountries` leaves its label with the flag `true`, and so does
`resetVisitedCountries` for every label of a country of that list; a mesh
without a label keeps its flag under both functions. -/
theorem major_flag_after_toggle_and_reset (s : State) (countryName meshKey : String) :
    (∀ (i : ℕ) (e : String × Mesh), s.countryMeshes[i]? = some e → e.1 ≠ meshKey →
        (toggleVisitedCountry countryName meshKey s).countryMeshes[i]? = some e) ∧
      (∀ (i : ℕ) (m : Mesh) (el : Element),
        s.countryMeshes[i]? = some (meshKey, m) → m.label = some el →
        (countryName ∉ s.visitedCountries ∨ countryName ∈ majorCountries) →
        ∃ m', (toggleVisitedCountry countryName meshKey s).countryMeshes[i]? =
            some (meshKey, m') ∧ m'.isLabelMajor = true) ∧
      (∀ (i : ℕ) (k : String) (m : Mesh) (el : Element),
        s.countryMeshes[i]? = some (k, m) → m.label = some el → m.country ∈ majorCountries →
        ∃ m', (resetVisitedCountries s).countryMeshes[i]? = some (k, m') ∧
          m'.isLabelMajor = true) ∧
      (∀ (i : ℕ) (k : String) (m : Mesh),
        s.countryMeshes[i]? = some (k, m) → m.label = none →
        (∃ m', (toggleVisitedCountry countryName meshKey s).countryMeshes[i]? = some (k, m') ∧
          m'.isLabelMajor = m.isLabelMajor) ∧
        (∃ m', (resetVisitedCountries s).countryMeshes[i]? = some (k, m') ∧
          m'.isLabelMajor = m.isLabelMajor)) := by
  refine ⟨?_, ?_, ?_, ?_⟩
  · intro i e hi hne
    rw [toggleVisitedCountry_countryMeshes]
    split <;> rw [getElem?_updateMesh _ _ _ i e hi, if_neg hne]
  · intro i m el hi hl hor
    rw [toggleVisitedCountry_countryMeshes]
    by_cases hv : countryName ∈ s.visitedCountries
    · have hmaj : countryName ∈ majorCountries := hor.resolve_left (fun h => h hv)
      rw [if_pos hv, getElem?_updateMesh _ _ _ i _ hi]
      refine ⟨unmarkMesh countryName m, by simp, ?_⟩
      simp [unmarkMesh, hl, hmaj]
    · rw [if_neg hv, getElem?_updateMesh _ _ _ i _ hi]
      refine ⟨markMesh m, by simp, ?_⟩
      simp [markMesh, hl]
  · intro i k m el hi hl hmaj
    refine ⟨resetMesh m, ?_, ?_⟩
    · simp [resetVisitedCountries, List.getElem?_map, hi]
    · simp [resetMesh, hl, hmaj]
  · intro i k m hi hl
    constructor
    · rw [toggleVisitedCountry_countryMeshes]
      split
      · rw [getElem?_updateMesh _ _ _ i _ hi]
        by_cases hk : k = meshKey
        · exact ⟨unmarkMesh countryName m, by simp [hk], by simp [unmarkMesh, hl]⟩
        · exact ⟨m, by simp [hk], rfl⟩
      · rw [getElem?_updateMesh _ _ _ i _ hi]
        by_cases hk : k = meshKey
        · exact ⟨markMesh m, by simp [hk], by simp [markMesh, hl]⟩
        · exact ⟨m, by simp [hk], rfl⟩
    · exact ⟨resetMesh m, by simp [resetVisitedCountries, List.getElem?_map, hi],
        by simp [resetMesh, hl]⟩

/-- C14 (amended) at the example `sAtlas`: marking Luxembourg, not visited and
with a minor label, gives its label the flag `true`. -/
theorem major_flag_after_toggle_and_reset_witness :
    ("Luxembourg" ∉ sAtlas.visitedCountries ∧
      sAtlas.countryMeshes[2]? =
        some ("Luxembourg", addLabel [] 1101 "Luxembourg" (rawMesh "Luxembourg" 1).2) ∧
      (addLabel [] 1101 "Luxembourg" (rawMesh "Luxembourg" 1).2).label =
        some (newElement false)) ∧
    ∃ m', (toggleVisitedCountry "Luxembourg" "Luxembourg" sAtlas).countryMeshes[2]? =
        some ("Luxembourg", m') ∧ m'.isLabelMajor = true :=
  ⟨⟨by decide, by decide!, by decide!⟩,
    (major_flag_after_toggle_and_reset sAtlas "Luxembourg" "Luxembourg").2.1 2
      (addLabel [] 1101 "Luxembourg" (rawMesh "Luxembourg" 1).2) (newElement false)
      (by decide!) (by decide!) (Or.inl (by decide))⟩

/-- C16 at the example `sAtlas` (the code breaks the claim): Greenland is not on
the list `majorCountries` and its label is major by its size; after two calls of
`toggleVisitedCountry` the visited set and what a fresh load yields are as
before, but the major flag of Greenland is `false`. -/
theorem toggle_twice_loses_major_flag :
    "Greenland" ∉ majorCountries ∧
      sAtlas.countryMeshes.map (fun e => (e.1, e.2.isLabelMajor)) =
        [("Russia", true), ("Greenland", true), ("Luxembourg", false)] ∧
      (toggleVisitedCountry "Greenland" "Greenland"
          (toggleVisitedCountry "Greenland" "Greenland" sAtlas)).countryMeshes.map
          (fun e => (e.1, e.2.isLabelMajor)) =
        [("Russia", true), ("Greenland", false), ("Luxembourg", false)] ∧
      (toggleVisitedCountry "Greenland" "Greenland"
          (toggleVisitedCountry "Greenland" "Greenland" sAtlas)).visitedCountries =
        sAtlas.visitedCountries ∧
      (reload (toggleVisitedCountry "Greenland" "Greenland"
          (toggleVisitedCountry "Greenland" "Greenland" sAtlas))).visitedCountries =
        (reload sAtlas).visitedCountries := by
  decide!

/-! ## The later theorems at concrete inputs -/

/-- C12 at the example `sDemo`: `B` comes after `A` in the sorted order and is
not visible. -/
theorem greedy_placement_witness :
    (sDemo.globe = true ∧ (sDemo.countryMeshes.map Prod.fst).Nodup ∧
      potentialVisibleLabels envDemo sDemo =
        [labelInfoOf envDemo sDemo.visitedCountries "A" (labelled "A" false).2] ++
          labelInfoOf envDemo sDemo.visitedCountries "B" (labelled "B" true).2 :: []) ∧
    ("B" ∈ (updateLabelVisibility envDemo sDemo).visibleLabels ↔
      ([labelInfoOf envDemo sDemo.visitedCountries "A" (labelled "A" false).2].filter (fun a =>
          decide (a.countryName ∈ (updateLabelVisibility envDemo sDemo).visibleLabels))).length
            < 15 ∧
        ∀ a ∈ [labelInfoOf envDemo sDemo.visitedCountries "A" (labelled "A" false).2],
          a.countryName ∈ (updateLabelVisibility envDemo sDemo).visibleLabels →
          overlaps (placementRect envDemo "B") (placementRect envDemo a.countryName) = false) :=
  ⟨⟨rfl, by decide, by decide!⟩,
    (greedy_placement envDemo sDemo
      [labelInfoOf envDemo sDemo.visitedCountries "A" (labelled "A" false).2] []
      (labelInfoOf envDemo sDemo.visitedCountries "B" (labelled "B" true).2)
      rfl (by decide) (by decide!)).1⟩

/-- C13 as stated fails at the example `sRound`: `P` and `Q` are both visible and
`P` is nearer to the camera (100.1 against 100.2), but both get the z-index 900,
so `P` is not above `Q`. -/
theorem nearer_label_same_zIndex :
    (updateLabelVisibility envRound sRound).visibleLabels = ["P", "Q"] ∧
      envRound.distanceToCamera "P" < envRound.distanceToCamera "Q" ∧
      (updateLabelVisibility envRound sRound).countryMeshes.map
          (fun e => (e.1, e.2.label.map (fun el => el.zIndex))) =
        [("P", some (some 900)), ("Q", some (some 900))] ∧
      ¬ (zIndexOf envRound "P" > zIndexOf envRound "Q") := by
  decide!

/-- C13 (amended) at the example `s16`: `L1` and `L2` are visible, at the
distances 1 and 2. -/
theorem nearer_label_not_below_witness :
    (s16.globe = true ∧ (s16.countryMeshes.map Prod.fst).Nodup ∧
      "L1" ∈ (updateLabelVisibility env16 s16).visibleLabels ∧
      "L2" ∈ (updateLabelVisibility env16 s16).visibleLabels ∧
      env16.distanceToCamera "L1" < env16.distanceToCamera "L2" ∧
      env16.distanceToCamera "L1" + 1 ≤ env16.distanceToCamera "L2") ∧
    zIndexOf env16 "L1" ≥ zIndexOf env16 "L2" ∧
    zIndexOf env16 "L1" > zIndexOf env16 "L2" :=
  ⟨⟨rfl, by decide!, by decide!, by decide!, by decide!, by decide!⟩,
    (nearer_label_not_below env16 s16 "L1" "L2" rfl (by decide!) (by decide!) (by decide!)
      (by decide!)).2.1,
    (nearer_label_not_below env16 s16 "L1" "L2" rfl (by decide!) (by decide!) (by decide!)
      (by decide!)).2.2 (by decide!)⟩

/-- C15 at the example `sDemo`: one label is visible, and the hidden candidate
`B` overlaps the visible `A` before it. -/
theorem hidden_candidate_blocked_witness :
    (sDemo.globe = true ∧ (updateLabelVisibility envDemo sDemo).visibleLabels.length < 15 ∧
      potentialVisibleLabels envDemo sDemo =
        [labelInfoOf envDemo sDemo.visitedCountries "A" (labelled "A" false).2] ++
          labelInfoOf envDemo sDemo.visitedCountries "B" (labelled "B" true).2 :: [] ∧
      "B" ∉ (updateLabelVisibility envDemo sDemo).visibleLabels) ∧
    ∃ a ∈ [labelInfoOf envDemo sDemo.visitedCountries "A" (labelled "A" false).2],
      a.countryName ∈ (updateLabelVisibility envDemo sDemo).visibleLabels ∧
        overlaps (placementRect envDemo "B") (placementRect envDemo a.countryName) = true :=
  ⟨⟨rfl, by decide!, by decide!, by decide!⟩,
    (hidden_candidate_blocked envDemo sDemo rfl).1 (by decide!)
      [labelInfoOf envDemo sDemo.visitedCountries "A" (labelled "A" false).2] []
      (labelInfoOf envDemo sDemo.visitedCountries "B" (labelled "B" true).2)
      (by decide!) (by decide!)⟩

end TennisMap
